import Mathlib

/-!
Module `qfs`: a real-path resolver by directory identity.

A shallow embedding of `src/qfs.cpp` (the POSIX branch of every function).

* A `std::string` is a Lean `String`; one character stands for one byte, and
  strings are taken to be free of the NUL byte, so `path.c_str()` is the
  string itself.
* The host filesystem is the record `Host` of the system calls the program
  makes (`stat`, `lstat`, `opendir`/`readdir`/`fstat`, `readlink`).  A host is
  static: a call gives the same answer every time it is made.  The calls are
  independent fields, so that a link whose `readlink` text is not as long as
  the `st_size` of its `lstat` stands for a link changed between the two calls.
* A C++ exception is the `Except.error` branch of the result.
* The two `while` loops take a `fuel` argument that bounds the number of times
  the loop body may run; `none` is the answer of a run that needs more.
-/

namespace qfs

/-! ## Data model -/

/-- The `typedef std::pair<dev_t, ino_t> file_id` of the source. -/
abbrev file_id := Nat × Nat

/-- The fields of `struct stat` that the program reads. -/
structure StatBuf where
  st_dev : Nat
  st_ino : Nat
  st_mode : Nat
  st_size : Int
deriving DecidableEq, Repr

/-- The pair `file_id(sb.st_dev, sb.st_ino)`. -/
def StatBuf.id (sb : StatBuf) : file_id := (sb.st_dev, sb.st_ino)

/-- File-type mask `S_IFMT` of `<sys/stat.h>`. -/
def S_IFMT : Nat := 0o170000
/-- File-type bits of a directory. -/
def S_IFDIR : Nat := 0o040000
/-- File-type bits of a symbolic link. -/
def S_IFLNK : Nat := 0o120000
/-- File-type bits of a regular file. -/
def S_IFREG : Nat := 0o100000

/-- The macro `S_ISDIR(m)`. -/
def S_ISDIR (m : Nat) : Bool := (m &&& S_IFMT) == S_IFDIR
/-- The macro `S_ISLNK(m)`. -/
def S_ISLNK (m : Nat) : Bool := (m &&& S_IFMT) == S_IFLNK

/-- The values of `errno` that `get_real_path` tells apart; every other value
is `other code`. -/
inductive Errno where
  | EACCES
  | ELOOP
  | ENAMETOOLONG
  | ENOENT
  | ENOTDIR
  | other (code : Nat)
deriving DecidableEq, Repr

/-- An open directory stream: the names that successive `readdir` calls give,
in that order, and the answer of `fstat(dirfd(dir), &sb)` (`none` when it
fails). -/
structure DIR where
  entries : List String
  fstat : Option StatBuf

/-- The system calls of the host.
* `stat p`: `none` when `stat(p, &sb)` is `-1`, else the buffer written;
* `lstat p`: the `errno` of a failed `lstat(p, &sb)`, else the buffer written;
* `opendir p`: `none` when `opendir(p)` is null;
* `readlink p n`: `none` when `readlink(p, buf, n)` is `-1`; `some t` when it
  returns `t.length` and has written the bytes `t` to `buf`;
* `NAME_MAX`: the constant of `<climits>`. -/
structure Host where
  stat : String → Option StatBuf
  lstat : String → Except Errno StatBuf
  opendir : String → Option DIR
  readlink : String → Nat → Option String
  NAME_MAX : Nat

/-- The two exception classes the program throws, with their message. -/
inductive Exception where
  | runtime_error (what : String)
  | invalid_argument (what : String)
deriving DecidableEq, Repr

/-! The failure kinds, under the names the specification gives them. -/

/-- Thrown by `get_real_directory` when `stat(path)` fails. -/
def NotFoundDirectory : Exception := .runtime_error "No such directory"
/-- Thrown by `get_real_directory` when `stat("/")` fails. -/
def RootUnreadable : Exception := .runtime_error "Could not read from root"
/-- Thrown by `get_real_directory` when the loop ends away from the root. -/
def BrokenChain : Exception := .runtime_error "Real path of directory not found."
/-- Thrown by `get_symlink_chain_target` on the empty string. -/
def EmptyChainPath : Exception := .invalid_argument "Empty path."
/-- Thrown by `get_symlink_chain_target` when `lstat` fails. -/
def DanglingOrMissing : Exception := .runtime_error "Dangling or nonexistent symlink chain."
/-- Thrown by `get_symlink_chain_target` on an identity already seen. -/
def RecursiveChain : Exception := .runtime_error "Recursive symlink chain."
/-- Thrown by `get_symlink_chain_target` on a link of reported length `≤ 0`. -/
def InvalidLinkLength : Exception :=
  .runtime_error "Unable to resolve symlink: invalid path length"
/-- Thrown by `get_symlink_chain_target` when the `readlink` count is refused. -/
def LinkRaceModified : Exception :=
  .runtime_error "Unable to resolve symlink: link modified during check"
/-- Thrown by `get_real_path` on the empty string. -/
def EmptyPath : Exception := .invalid_argument "The path specified is empty."
/-- Thrown by `get_real_path` on `EACCES`. -/
def PermissionDenied : Exception := .runtime_error "Permission denied."
/-- Thrown by `get_real_path` on `ENOENT`, `ENOTDIR` and a long base name. -/
def NotFound : Exception := .runtime_error "The path specified is nonexistent"
/-- Thrown by `get_real_path` on any other `errno`. -/
def IoError : Exception := .runtime_error "An error occured reading from the filesystem."

/-- The result of a call: `none` when the fuel ran out, else the string
returned or the exception thrown. -/
abbrev Outcome := Option (Except Exception String)

instance {ε α : Type} [DecidableEq ε] [DecidableEq α] : DecidableEq (Except ε α) := fun a b =>
  match a, b with
  | .ok x, .ok y => if h : x = y then isTrue (by rw [h]) else isFalse (fun e => h (by injection e))
  | .error x, .error y =>
    if h : x = y then isTrue (by rw [h]) else isFalse (fun e => h (by injection e))
  | .ok _, .error _ => isFalse (fun e => by cases e)
  | .error _, .ok _ => isFalse (fun e => by cases e)

/-! ## Lexical splitter -/

/-- The position `path.rfind("/")`: the index of the last `'/'`, if any. -/
def rfind_slash : List Char → Option Nat
  | [] => none
  | c :: cs =>
    match rfind_slash cs with
    | some i => some (i + 1)
    | none => if c = '/' then some 0 else none

/-- Function `get_directory` (qfs.cpp 38-47). -/
def get_directory (path : String) : String :=
  match rfind_slash path.data with
  | some delimiter_position => ⟨path.data.take (delimiter_position + 1)⟩
  | none => "."

/-- Function `get_base` (qfs.cpp 50-59). -/
def get_base (path : String) : String :=
  match rfind_slash path.data with
  | some delimiter_position => ⟨path.data.drop (delimiter_position + 1)⟩
  | none => path

/-! ## Directory ascension -/

/-- The `readdir` loop of `get_real_directory` (qfs.cpp 90-106) over the
entries still to be read: `up_slash` is `up_path` cut after `after_slash`.
The answer is the `d_name` pushed, or `none` when the stream ends with
`pushed == false`. -/
def scan_entries (h : Host) (up_slash : String) (current_id : file_id) :
    List String → Option String
  | [] => none
  | d_name :: rest =>
    if d_name ≠ "." ∧ d_name ≠ ".." then
      match h.lstat (up_slash ++ d_name) with
      | .ok sb =>
        if sb.id = current_id then some d_name
        else scan_entries h up_slash current_id rest
      | .error _ => scan_entries h up_slash current_id rest
    else scan_entries h up_slash current_id rest

/-- The outer `while (current_id != root_id)` loop of `get_real_directory`
(qfs.cpp 79-118) from the state `(current_id, up_path, path_components)`.
The answer is the state at the exit of the loop. -/
def ascend (h : Host) (root_id : file_id) :
    Nat → file_id → String → List String → Option (file_id × List String)
  | fuel, current_id, up_path, path_components =>
    if current_id = root_id then some (current_id, path_components)
    else
      match fuel with
      | 0 => none
      | fuel + 1 =>
        match h.opendir up_path with
        | none => some (current_id, path_components)
        | some dir =>
          match scan_entries h (up_path ++ "/") current_id dir.entries with
          | none => some (current_id, path_components)
          | some d_name =>
            match dir.fstat with
            | some sb =>
              ascend h root_id fuel sb.id (up_path ++ "/" ++ "..")
                (path_components ++ [d_name])
            | none =>
              ascend h root_id fuel current_id (up_path ++ "/" ++ d_name)
                (path_components ++ [d_name])

/-- The loop of qfs.cpp 124-127: `real_path += *i + "/"` over the components
from the last pushed to the first. -/
def build_real_path (path_components : List String) : String :=
  path_components.reverse.foldl (fun real_path i => real_path ++ (i ++ "/")) "/"

/-- Function `get_real_directory` (qfs.cpp 61-135). -/
def get_real_directory (h : Host) (fuel : Nat) (path : String) : Outcome :=
  match h.stat path with
  | none => some (.error (.runtime_error "No such directory"))
  | some sb =>
    let current_id := sb.id
    match h.stat "/" with
    | none => some (.error (.runtime_error "Could not read from root"))
    | some sb =>
      let root_id := sb.id
      match ascend h root_id fuel current_id (path ++ "/..") [] with
      | none => none
      | some (current_id, path_components) =>
        if current_id = root_id then some (.ok (build_real_path path_components))
        else some (.error (.runtime_error "Real path of directory not found."))

/-- Function `get_real_file` (qfs.cpp 137-144). -/
def get_real_file (h : Host) (fuel : Nat) (path : String) : Outcome :=
  match get_real_directory h fuel (get_directory path) with
  | none => none
  | some (.error e) => some (.error e)
  | some (.ok real_directory) => some (.ok (real_directory ++ get_base path))

/-- Function `get_current_working_directory` (qfs.cpp 146-153). -/
def get_current_working_directory (h : Host) (fuel : Nat) : Outcome :=
  get_real_directory h fuel "."

/-! ## Symlink chain -/

/-- The `while (true)` loop of `get_symlink_chain_target` (qfs.cpp 166-201)
from the state `(path, seen_links)`.  The answer is the working path at the
`break`, or the exception thrown. -/
def follow_chain (h : Host) : Nat → String → List file_id → Option (Except Exception String)
  | 0, _, _ => none
  | fuel + 1, path, seen_links =>
    match h.lstat path with
    | .error _ => some (.error (.runtime_error "Dangling or nonexistent symlink chain."))
    | .ok sb =>
      let current_id := sb.id
      if current_id ∈ seen_links then
        some (.error (.runtime_error "Recursive symlink chain."))
      else
        let seen_links := current_id :: seen_links
        if S_ISLNK sb.st_mode then
          if sb.st_size ≤ 0 then
            some (.error (.runtime_error "Unable to resolve symlink: invalid path length"))
          else
            let (amount, buffer) : Int × String :=
              match h.readlink path (sb.st_size + 1).toNat with
              | none => (-1, "")
              | some t => (t.length, t)
            if ¬ (amount > 0 ∧ amount ≤ sb.st_size) then
              some (.error
                (.runtime_error "Unable to resolve symlink: link modified during check"))
            else if buffer.data.head? = some '/' then follow_chain h fuel buffer seen_links
            else follow_chain h fuel (get_directory path ++ buffer) seen_links
        else some (.ok path)

/-- Function `get_symlink_chain_target` (qfs.cpp 155-206). -/
def get_symlink_chain_target (h : Host) (fuel : Nat) (path : String) : Outcome :=
  if path.length = 0 then some (.error (.invalid_argument "Empty path."))
  else
    match follow_chain h fuel path [] with
    | none => none
    | some (.error e) => some (.error e)
    | some (.ok path) => get_real_file h fuel path

/-- The working path after a link read at `path` with target text `t` is
followed (qfs.cpp 187-194). -/
def next_path (path t : String) : String :=
  if t.data.head? = some '/' then t else get_directory path ++ t

/-! ## Dispatcher -/

/-- The `lstat` call and the `switch errno` of `get_real_path` (qfs.cpp
214-231).  `sb0` is what the local `struct stat sb` holds before the call; a
failed `lstat` leaves it as it is.  The answer is the buffer that line 233
reads, or the exception thrown. -/
def classify_lstat (h : Host) (sb0 : StatBuf) (path : String) : Except Exception StatBuf :=
  match h.lstat path with
  | .ok sb => .ok sb
  | .error .EACCES => .error (.runtime_error "Permission denied.")
  | .error .ELOOP => .ok sb0
  | .error .ENAMETOOLONG =>
    if (get_base path).length ≤ h.NAME_MAX then .ok sb0
    else .error (.runtime_error "The path specified is nonexistent")
  | .error .ENOENT => .error (.runtime_error "The path specified is nonexistent")
  | .error .ENOTDIR => .error (.runtime_error "The path specified is nonexistent")
  | .error (.other _) =>
    .error (.runtime_error "An error occured reading from the filesystem.")

/-- Function `get_real_path` (qfs.cpp 208-236). -/
def get_real_path (h : Host) (sb0 : StatBuf) (fuel : Nat) (path : String)
    (should_resolve_symlinks : Bool) : Outcome :=
  if path.length = 0 then some (.error (.invalid_argument "The path specified is empty."))
  else
    match classify_lstat h sb0 path with
    | .error e => some (.error e)
    | .ok sb =>
      if S_ISDIR sb.st_mode then get_real_directory h fuel path
      else if should_resolve_symlinks then get_symlink_chain_target h fuel path
      else get_real_file h fuel path

/-! ## Well-formed directory trees -/

/-- The string `"/" ++ n1 ++ "/" ++ ... ++ nk ++ "/"` of a root-to-leaf name
sequence `n1, ..., nk`. -/
def canonical (names : List String) : String :=
  names.foldl (fun s n => s ++ n ++ "/") "/"

/-- Relation `AscendsTo root_id parent name d up`: walking from the directory `d` to
its parent until `root_id` is met reads the names `up`, leaf first. -/
def AscendsTo (root_id : file_id) (parent : file_id → file_id) (name : file_id → String) :
    file_id → List String → Prop
  | d, [] => d = root_id
  | d, n :: up => d ≠ root_id ∧ n = name d ∧ AscendsTo root_id parent name (parent d) up

/-- The directory `d` has the root-to-leaf name sequence `names`. -/
def Lineage (root_id : file_id) (parent : file_id → file_id) (name : file_id → String)
    (d : file_id) (names : List String) : Prop :=
  AscendsTo root_id parent name d names.reverse

instance AscendsTo.dec (root_id : file_id) (parent : file_id → file_id)
    (name : file_id → String) :
    ∀ (d : file_id) (up : List String), Decidable (AscendsTo root_id parent name d up)
  | d, [] => inferInstanceAs (Decidable (d = root_id))
  | d, n :: up =>
    have := AscendsTo.dec root_id parent name (parent d) up
    inferInstanceAs
      (Decidable (d ≠ root_id ∧ n = name d ∧ AscendsTo root_id parent name (parent d) up))

instance (root_id : file_id) (parent : file_id → file_id) (name : file_id → String)
    (d : file_id) (names : List String) : Decidable (Lineage root_id parent name d names) :=
  AscendsTo.dec root_id parent name d names.reverse

/-- A static host whose directories form a well-formed tree with root
`root_id`: `"/"` is the root; for a path `p` that denotes a directory `d` other
than the root, `p/..` opens and denotes the parent of `d`; the parent lists
`d` under the name `name d` and under no other name. -/
structure WellFormedTree (h : Host) (root_id : file_id) (parent : file_id → file_id)
    (name : file_id → String) : Prop where
  root_stat : ∃ sb, h.stat "/" = some sb ∧ sb.id = root_id
  dotdot : ∀ p sb, h.stat p = some sb → S_ISDIR sb.st_mode = true → sb.id ≠ root_id →
    ∃ dir sbp, h.opendir (p ++ "/..") = some dir ∧ dir.fstat = some sbp ∧
      h.stat (p ++ "/..") = some sbp ∧ S_ISDIR sbp.st_mode = true ∧
      sbp.id = parent sb.id ∧
      name sb.id ∈ dir.entries ∧ name sb.id ≠ "." ∧ name sb.id ≠ ".." ∧
      (∃ sbc, h.lstat (p ++ "/.." ++ "/" ++ name sb.id) = .ok sbc ∧ sbc.id = sb.id) ∧
      ∀ e ∈ dir.entries, e ≠ "." → e ≠ ".." →
        ∀ sbe, h.lstat (p ++ "/.." ++ "/" ++ e) = .ok sbe → sbe.id = sb.id → e = name sb.id

/-- A static host on which `get_real_directory` can be applied to its own
result: a well-formed tree in which, besides, nothing but a directory has a
`..` that opens, and the path spelt by the root-to-leaf names of a directory
denotes that directory. -/
structure StaticTree (h : Host) (root_id : file_id) (parent : file_id → file_id)
    (name : file_id → String) extends WellFormedTree h root_id parent name : Prop where
  notdir : ∀ p sb, h.stat p = some sb → S_ISDIR sb.st_mode = false →
    sb.id ≠ root_id ∧ h.opendir (p ++ "/..") = none
  reach : ∀ p sb names, h.stat p = some sb → S_ISDIR sb.st_mode = true →
    Lineage root_id parent name sb.id names →
    ∃ sbc, h.stat (canonical names) = some sbc ∧ sbc.id = sb.id ∧ S_ISDIR sbc.st_mode = true

/-! ## A host built from a tree -/

/-- A tree of directories and plain files on one device, named by inode
number. `listing n` is what the directory `n` holds, in `readdir` order, the
entries `.` and `..` left out. -/
structure Tree where
  nodes : List Nat
  root : Nat
  cwd : Nat
  isDir : Nat → Bool
  parent : Nat → Nat
  name : Nat → String
  listing : Nat → List (String × Nat)

/-- One component `comp` of a path, looked up in the object `cur`. -/
def Tree.step (t : Tree) (cur : Option Nat) (comp : List Char) : Option Nat :=
  cur.bind fun n =>
    if t.isDir n then
      if comp = [] ∨ comp = ['.'] then some n
      else if comp = ['.', '.'] then some (t.parent n)
      else (t.listing n).lookup ⟨comp⟩
    else none

/-- Path resolution over the rest of the path text, from the object `st.1`
with the component `st.2` read so far. -/
def Tree.walk (t : Tree) : Option Nat × List Char → List Char → Option Nat
  | (cur, comp), [] => t.step cur comp
  | (cur, comp), c :: cs =>
    if c = '/' then t.walk (t.step cur comp, []) cs else t.walk (cur, comp ++ [c]) cs

/-- The object a path denotes: an absolute path is resolved from the root, a
relative one from the working directory, the empty path denotes nothing. -/
def Tree.resolve (t : Tree) (p : String) : Option Nat :=
  match p.data with
  | [] => none
  | c :: cs => t.walk (some (if c = '/' then t.root else t.cwd), []) (c :: cs)

/-- The `struct stat` of the object `n`. -/
def Tree.statOf (t : Tree) (n : Nat) : StatBuf :=
  { st_dev := 1, st_ino := n, st_mode := if t.isDir n then 0o040755 else 0o100644, st_size := 0 }

/-- The host that serves the system calls from the tree. -/
def Tree.host (t : Tree) : Host where
  stat p := (t.resolve p).map t.statOf
  lstat p :=
    match t.resolve p with
    | some n => .ok (t.statOf n)
    | none => .error .ENOENT
  opendir p :=
    (t.resolve p).bind fun n =>
      if t.isDir n then
        some { entries := "." :: ".." :: (t.listing n).map Prod.fst, fstat := some (t.statOf n) }
      else none
  readlink _ _ := none
  NAME_MAX := 255

/-- A name that a directory entry may bear. -/
def validName (e : String) : Prop :=
  e.data ≠ [] ∧ e.data ≠ ['.'] ∧ e.data ≠ ['.', '.'] ∧ '/' ∉ e.data

instance (e : String) : Decidable (validName e) := by
  unfold validName; infer_instance

/-- The tables of `t` describe a tree: the root is a directory, parents of
directories are directories, each entry bears a valid name that no earlier
entry of the same directory bears, and each directory other than the root is
held by its parent under its own name and no other. -/
def Tree.Valid (t : Tree) : Prop :=
  t.root ∈ t.nodes ∧ t.cwd ∈ t.nodes ∧ t.isDir t.root = true ∧
  (∀ n ∈ t.nodes, t.parent n ∈ t.nodes ∧ (t.isDir n = true → t.isDir (t.parent n) = true)) ∧
  (∀ n ∈ t.nodes, ∀ e ∈ t.listing n,
    e.2 ∈ t.nodes ∧ validName e.1 ∧ (t.listing n).lookup e.1 = some e.2) ∧
  (∀ n ∈ t.nodes, t.isDir n = true → n ≠ t.root →
    (t.name n, n) ∈ t.listing (t.parent n) ∧
    ∀ e ∈ t.listing (t.parent n), e.2 = n → e.1 = t.name n)

instance (t : Tree) : Decidable t.Valid := by
  unfold Tree.Valid; infer_instance

/-- The tree `/tmp/a/b/c` with a plain file `/tmp/a/f.txt` and a second
directory `/home`; the working directory is `/tmp/a/b`. -/
def demoTree : Tree where
  nodes := [2, 10, 11, 12, 13, 20, 30]
  root := 2
  cwd := 12
  isDir n := n != 20
  parent n :=
    match n with
    | 10 => 2 | 11 => 10 | 12 => 11 | 13 => 12 | 20 => 11 | 30 => 2 | _ => 2
  name n :=
    match n with
    | 10 => "tmp" | 11 => "a" | 12 => "b" | 13 => "c" | 20 => "f.txt" | 30 => "home" | _ => ""
  listing n :=
    match n with
    | 2 => [("home", 30), ("tmp", 10)]
    | 10 => [("a", 11)]
    | 11 => [("f.txt", 20), ("b", 12)]
    | 12 => [("c", 13)]
    | _ => []

/-- The identity of the root of `t`. -/
def Tree.rootId (t : Tree) : file_id := (1, t.root)
/-- The parent table of `t` on identities. -/
def Tree.parentId (t : Tree) (d : file_id) : file_id := (d.1, t.parent d.2)
/-- The name table of `t` on identities. -/
def Tree.nameId (t : Tree) (d : file_id) : String := t.name d.2

/-- The host of `t` on a system whose calls refuse a path of `path_max` bytes
or more with `ENAMETOOLONG`. -/
def Tree.hostWithin (t : Tree) (path_max : Nat) : Host where
  stat p := if p.length < path_max then t.host.stat p else none
  lstat p := if p.length < path_max then t.host.lstat p else .error .ENAMETOOLONG
  opendir p := if p.length < path_max then t.host.opendir p else none
  readlink _ _ := none
  NAME_MAX := 255

/-- The answers of the system calls in the working directory `/w`, which
holds the symbolic links `a -> b`, `b -> a` and `l -> f` (relative targets)
and the plain file `f`.  The paths answered are the bare names of the four
entries, `.`, `/` and the probes of `get_real_directory(".")`; no other name
exists in `/w`. -/
def cwdLinks : Host where
  stat p :=
    if p = "." then some ⟨1, 3, 0o040755, 0⟩
    else if p = "/" ∨ p = "./.." then some ⟨1, 2, 0o040755, 0⟩
    else if p = "f" ∨ p = "l" then some ⟨1, 104, 0o100644, 0⟩
    else none
  lstat p :=
    if p = "a" then .ok ⟨1, 101, 0o120777, 1⟩
    else if p = "b" then .ok ⟨1, 102, 0o120777, 1⟩
    else if p = "l" then .ok ⟨1, 103, 0o120777, 1⟩
    else if p = "f" then .ok ⟨1, 104, 0o100644, 0⟩
    else if p = "." ∨ p = "./../w" then .ok ⟨1, 3, 0o040755, 0⟩
    else if p = "/" ∨ p = "./.." then .ok ⟨1, 2, 0o040755, 0⟩
    else .error .ENOENT
  opendir p :=
    if p = "./.." ∨ p = "/" then some ⟨[".", "..", "w"], some ⟨1, 2, 0o040755, 0⟩⟩
    else if p = "." then some ⟨[".", "..", "a", "b", "l", "f"], some ⟨1, 3, 0o040755, 0⟩⟩
    else none
  readlink p n :=
    if p = "a" then some ("b".take n)
    else if p = "b" then some ("a".take n)
    else if p = "l" then some ("f".take n)
    else none
  NAME_MAX := 255

/-- The answers of the system calls around a symbolic link `/l` whose target
was five bytes long when `lstat` measured it and is `/f`, two bytes, when
`readlink` reads it; `/f` is a plain file. -/
def shrunkLink : Host where
  stat p := if p = "/" then some ⟨1, 2, 0o040755, 0⟩ else none
  lstat p :=
    if p = "/l" then .ok ⟨1, 5, 0o120777, 5⟩
    else if p = "/f" then .ok ⟨1, 6, 0o100644, 0⟩
    else if p = "/" then .ok ⟨1, 2, 0o040755, 0⟩
    else .error .ENOENT
  opendir p := if p = "/" then some ⟨[".", "..", "l", "f"], some ⟨1, 2, 0o040755, 0⟩⟩ else none
  readlink p n := if p = "/l" then some ("/f".take n) else none
  NAME_MAX := 255

/-- The answers of the system calls around a symbolic link `/l` whose target
was two bytes long when `lstat` measured it and is `/ff`, three bytes, when
`readlink` reads it. -/
def grownLink : Host where
  stat p := if p = "/" then some ⟨1, 2, 0o040755, 0⟩ else none
  lstat p :=
    if p = "/l" then .ok ⟨1, 5, 0o120777, 2⟩
    else if p = "/ff" then .ok ⟨1, 6, 0o100644, 0⟩
    else if p = "/" then .ok ⟨1, 2, 0o040755, 0⟩
    else .error .ENOENT
  opendir p := if p = "/" then some ⟨[".", "..", "l", "ff"], some ⟨1, 2, 0o040755, 0⟩⟩ else none
  readlink p n := if p = "/l" then some ("/ff".take n) else none
  NAME_MAX := 255

/-- The answers of the system calls on a host where resolving `x/y` meets too
many symbolic links: `lstat` and `stat` fail on it with `ELOOP`. -/
def loopedPath : Host where
  stat p := if p = "/" then some ⟨1, 2, 0o040755, 0⟩ else none
  lstat p :=
    if p = "x/y" then .error .ELOOP
    else if p = "/" then .ok ⟨1, 2, 0o040755, 0⟩
    else .error .ENOENT
  opendir p := if p = "/" then some ⟨[".", "..", "x"], some ⟨1, 2, 0o040755, 0⟩⟩ else none
  readlink _ _ := none
  NAME_MAX := 255

/-- The answers of the system calls around two symbolic links whose targets
are as long as `lstat` says: `/l -> /f` (absolute, two bytes) and
`/d/m -> g` (relative, one byte); `/f` and `/d/g` are plain files. -/
def exactLink : Host where
  stat p :=
    if p = "/" ∨ p = "/d/.." then some ⟨1, 2, 0o040755, 0⟩
    else if p = "/d/" then some ⟨1, 7, 0o040755, 0⟩
    else none
  lstat p :=
    if p = "/l" then .ok ⟨1, 5, 0o120777, 2⟩
    else if p = "/f" then .ok ⟨1, 6, 0o100644, 0⟩
    else if p = "/d/m" then .ok ⟨1, 8, 0o120777, 1⟩
    else if p = "/d/g" then .ok ⟨1, 9, 0o100644, 0⟩
    else if p = "/d" ∨ p = "/d/" ∨ p = "/d//../d" then .ok ⟨1, 7, 0o040755, 0⟩
    else if p = "/" then .ok ⟨1, 2, 0o040755, 0⟩
    else .error .ENOENT
  opendir p :=
    if p = "/" ∨ p = "/d//.." then some ⟨[".", "..", "l", "f", "d"], some ⟨1, 2, 0o040755, 0⟩⟩
    else none
  readlink p n :=
    if p = "/l" then some ("/f".take n)
    else if p = "/d/m" then some ("g".take n)
    else none
  NAME_MAX := 255

/-- The value that `readlink` returns: `-1` on failure, else the number of
bytes placed in the buffer. -/
def read_amount : Option String → Int
  | none => -1
  | some t => t.length

/-- One run of the body of the loop of `get_real_directory` (qfs.cpp 81-117)
from the state `(current_id, up_path)`: `none` when it ends with
`pushed == false`, else the next `current_id`, the next `up_path` and the
name pushed. -/
def ascend_body (h : Host) (current_id : file_id) (up_path : String) :
    Option (file_id × String × String) :=
  match h.opendir up_path with
  | none => none
  | some dir =>
    match scan_entries h (up_path ++ "/") current_id dir.entries with
    | none => none
    | some d_name =>
      match dir.fstat with
      | some sb => some (sb.id, up_path ++ "/" ++ "..", d_name)
      | none => some (current_id, up_path ++ "/" ++ d_name, d_name)

/-- The entry `e` of the directory opened at `up_path` is one that the scan
accepts for `current_id`: it is neither `.` nor `..`, `lstat` succeeds on
`up_path/e`, and the identity it reports is `current_id`. -/
def Matches (h : Host) (up_path : String) (current_id : file_id) (e : String) : Prop :=
  e ≠ "." ∧ e ≠ ".." ∧ ∃ sb, h.lstat (up_path ++ "/" ++ e) = .ok sb ∧ sb.id = current_id

/-- The answers of the system calls around a directory `x` of the root, where
`fstat` fails on the open root directory. -/
def fstatFails : Host where
  stat p :=
    if p = "x" then some ⟨1, 3, 0o040755, 0⟩
    else if p = "/" ∨ p = "x/.." then some ⟨1, 2, 0o040755, 0⟩
    else none
  lstat p :=
    if p = "x" ∨ p = "x/../x" then .ok ⟨1, 3, 0o040755, 0⟩
    else if p = "/" ∨ p = "x/.." then .ok ⟨1, 2, 0o040755, 0⟩
    else .error .ENOENT
  opendir p :=
    if p = "x/.." ∨ p = "/" then some ⟨[".", "..", "x"], none⟩
    else if p = "x" ∨ p = "x/../x" then some ⟨[".", ".."], some ⟨1, 3, 0o040755, 0⟩⟩
    else none
  readlink _ _ := none
  NAME_MAX := 255
/-- Within `n` runs of the body of the loop of `get_real_directory` from the
state `(current_id, up_path)`, before `current_id` is the root identity, a run
is met that cannot open its probe directory or finds in it no entry that
matches the current identity. -/
inductive BreaksWithin (h : Host) (root_id : file_id) : Nat → file_id → String → Prop
  | cannot_open {n : Nat} {cur : file_id} {up : String} :
    cur ≠ root_id → h.opendir up = none → BreaksWithin h root_id (n + 1) cur up
  | no_entry {n : Nat} {cur : file_id} {up : String} {dir : DIR} :
    cur ≠ root_id → h.opendir up = some dir → (∀ e ∈ dir.entries, ¬ Matches h up cur e) →
    BreaksWithin h root_id (n + 1) cur up
  | step {n : Nat} {cur c : file_id} {up u d : String} :
    cur ≠ root_id → ascend_body h cur up = some (c, u, d) → BreaksWithin h root_id n c u →
    BreaksWithin h root_id (n + 1) cur up

/-- The path `/xx...x` with `k` letters. -/
def chainName (k : Nat) : String := ⟨'/' :: List.replicate k 'x'⟩

/-- The answers of the system calls in a root directory that holds a chain of
`n` symbolic links `/x -> /xx -> ... ` ending on a plain file with `n + 1`
letters.  The entry with `k` letters has the inode `k + 1`; `readlink` gives
the whole target, which fits the buffer the program passes. -/
def longChain (n : Nat) : Host where
  stat p := if p = "/" then some ⟨1, 1, 0o040755, 0⟩ else none
  lstat p :=
    if 2 ≤ p.length ∧ p.length ≤ n + 2 ∧ p = chainName (p.length - 1) then
      .ok ⟨1, p.length, if p.length ≤ n + 1 then 0o120777 else 0o100644, p.length + 1⟩
    else if p = "/" then .ok ⟨1, 1, 0o040755, 0⟩
    else .error .ENOENT
  opendir p :=
    if p = "/" then
      some ⟨"." :: ".." :: (List.range (n + 1)).map (fun k => ⟨List.replicate (k + 1) 'x'⟩),
        some ⟨1, 1, 0o040755, 0⟩⟩
    else none
  readlink p _ :=
    if 2 ≤ p.length ∧ p.length ≤ n + 1 ∧ p = chainName (p.length - 1) then
      some (chainName p.length)
    else none
  NAME_MAX := 255

/-- Two neighbouring bytes that are not both `'/'`. -/
def NotBothSlash (a b : Char) : Prop := ¬ (a = '/' ∧ b = '/')

/-- Every name that `readdir` gives on the host is non-empty and holds no `'/'`. -/
def EntryNamesValid (h : Host) : Prop :=
  ∀ p dir, h.opendir p = some dir → ∀ e ∈ dir.entries, e.data ≠ [] ∧ '/' ∉ e.data

/-- What one run of the body of the loop of `get_symlink_chain_target` ends
in: an exception, the `break` with the working path, or the `continue` with
the new working path and the seen set. -/
inductive ChainRun where
  | thrown (e : Exception)
  | left (path : String)
  | again (path : String) (seen_links : List file_id)
deriving DecidableEq, Repr

/-- One run of the body of the loop of `get_symlink_chain_target` (qfs.cpp
168-200) from the state `(path, seen_links)`. -/
def chain_body (h : Host) (path : String) (seen_links : List file_id) : ChainRun :=
  match h.lstat path with
  | .error _ => .thrown (.runtime_error "Dangling or nonexistent symlink chain.")
  | .ok sb =>
    let current_id := sb.id
    if current_id ∈ seen_links then .thrown (.runtime_error "Recursive symlink chain.")
    else
      let seen_links := current_id :: seen_links
      if S_ISLNK sb.st_mode then
        if sb.st_size ≤ 0 then
          .thrown (.runtime_error "Unable to resolve symlink: invalid path length")
        else
          let (amount, buffer) : Int × String :=
            match h.readlink path (sb.st_size + 1).toNat with
            | none => (-1, "")
            | some t => (t.length, t)
          if ¬ (amount > 0 ∧ amount ≤ sb.st_size) then
            .thrown (.runtime_error "Unable to resolve symlink: link modified during check")
          else if buffer.data.head? = some '/' then .again buffer seen_links
          else .again (get_directory path ++ buffer) seen_links
      else .left path

/-- The identity that `lstat` reports for `path`, when the call succeeds. -/
def lstat_id (h : Host) (path : String) : Option file_id :=
  match h.lstat path with
  | .ok sb => some sb.id
  | .error _ => none

instance (h : Host) (up_path : String) (current_id : file_id) (e : String) :
    Decidable (Matches h up_path current_id e) :=
  decidable_of_iff
    (e ≠ "." ∧ e ≠ ".." ∧ lstat_id h (up_path ++ "/" ++ e) = some current_id) (by
      unfold Matches lstat_id
      cases h.lstat (up_path ++ "/" ++ e) <;> simp)

/-- The entry `d` is the first of the stream `entries`, read in the directory
opened at `up_path`, that the scan accepts for `current_id`. -/
def FirstMatch (h : Host) (up_path : String) (current_id : file_id) :
    List String → String → Prop
  | [], _ => False
  | e :: rest, d =>
    (Matches h up_path current_id e ∧ e = d) ∨
      (¬ Matches h up_path current_id e ∧ FirstMatch h up_path current_id rest d)

instance FirstMatch.dec (h : Host) (up_path : String) (current_id : file_id) :
    ∀ (entries : List String) (d : String),
      Decidable (FirstMatch h up_path current_id entries d)
  | [], _ => isFalse (fun hf => hf)
  | e :: rest, d =>
    have := FirstMatch.dec h up_path current_id rest d
    inferInstanceAs (Decidable ((Matches h up_path current_id e ∧ e = d) ∨
      (¬ Matches h up_path current_id e ∧ FirstMatch h up_path current_id rest d)))

/-- The host answers the probes of an ascension from `(current_id, v)` as it
answers those of the ascension from `(current_id, u)`, for `fuel` runs of the
loop of `get_real_directory`: in each run that the ascension from `u`
completes (its probe directory opens and an entry is pushed), the probe
directory of `v` opens too, the first entry that matches in it is the name
pushed from `u`, and `fstat` fails on both or reports the same identity on
both; then the same holds of the next pair of probes. -/
def ProbesAgree (h : Host) (root_id : file_id) : Nat → file_id → String → String → Prop
  | 0, _, _, _ => True
  | fuel + 1, current_id, u, v =>
    current_id = root_id ∨
    match h.opendir u with
    | none => True
    | some dir =>
      match scan_entries h (u ++ "/") current_id dir.entries with
      | none => True
      | some d_name =>
        match h.opendir v with
        | none => False
        | some dir2 =>
          FirstMatch h v current_id dir2.entries d_name ∧
          dir2.fstat.map StatBuf.id = dir.fstat.map StatBuf.id ∧
          match dir.fstat with
          | some sb => ProbesAgree h root_id fuel sb.id (u ++ "/" ++ "..") (v ++ "/" ++ "..")
          | none =>
            ProbesAgree h root_id fuel current_id (u ++ "/" ++ d_name) (v ++ "/" ++ d_name)

instance ProbesAgree.dec (h : Host) (root_id : file_id) :
    ∀ (fuel : Nat) (current_id : file_id) (u v : String),
      Decidable (ProbesAgree h root_id fuel current_id u v)
  | 0, _, _, _ => isTrue trivial
  | fuel + 1, current_id, u, v => by
    have ih := ProbesAgree.dec h root_id fuel
    unfold ProbesAgree
    cases h.opendir u with
    | none => dsimp only; infer_instance
    | some dir =>
      dsimp only
      cases scan_entries h (u ++ "/") current_id dir.entries with
      | none => dsimp only; infer_instance
      | some d_name =>
        dsimp only
        cases h.opendir v with
        | none => dsimp only; infer_instance
        | some dir2 =>
          dsimp only
          cases dir.fstat with
          | none => dsimp only; infer_instance
          | some sb => dsimp only; infer_instance

theorem scan_entries_unique (h : Host) (up_slash : String) (cur : file_id) (n : String)
    (entries : List String) (hmem : n ∈ entries) (hd1 : n ≠ ".") (hd2 : n ≠ "..")
    (hn : ∃ sbc, h.lstat (up_slash ++ n) = .ok sbc ∧ sbc.id = cur)
    (hu : ∀ e ∈ entries, e ≠ "." → e ≠ ".." →
      ∀ sbe, h.lstat (up_slash ++ e) = .ok sbe → sbe.id = cur → e = n) :
    scan_entries h up_slash cur entries = some n := by
  induction entries with
  | nil => simp at hmem
  | cons e rest ih =>
    unfold scan_entries
    by_cases hdots : e ≠ "." ∧ e ≠ ".."
    · rw [if_pos hdots]
      by_cases hen : e = n
      · subst hen
        obtain ⟨sbc, hl, hid⟩ := hn
        simp [hl, hid]
      · have hrest : n ∈ rest := by
          rcases List.mem_cons.1 hmem with h1 | h1
          · exact absurd h1.symm hen
          · exact h1
        have ih2 := ih hrest (fun e2 he2 => hu e2 (List.mem_cons_of_mem _ he2))
        cases hl : h.lstat (up_slash ++ e) with
        | error er => simpa using ih2
        | ok sbe =>
          have hne : sbe.id ≠ cur := fun hid =>
            hen (hu e (List.mem_cons_self _ _) hdots.1 hdots.2 sbe hl hid)
          simpa [hne] using ih2
    · rw [if_neg hdots]
      have hen : e ≠ n := by
        rintro rfl
        exact hdots ⟨hd1, hd2⟩
      have hrest : n ∈ rest := by
        rcases List.mem_cons.1 hmem with h1 | h1
        · exact absurd h1.symm hen
        · exact h1
      exact ih hrest (fun e2 he2 => hu e2 (List.mem_cons_of_mem _ he2))

theorem append_dotdot (s : String) : s ++ "/" ++ ".." = s ++ "/.." := by
  rw [String.append_assoc]; rfl

theorem ascend_lineage (h : Host) (root_id : file_id) (parent : file_id → file_id)
    (name : file_id → String) (wf : WellFormedTree h root_id parent name) :
    ∀ (up : List String) (p : String) (sb : StatBuf) (comps : List String) (fuel : Nat),
      h.stat p = some sb → S_ISDIR sb.st_mode = true →
      AscendsTo root_id parent name sb.id up → up.length ≤ fuel →
      ascend h root_id fuel sb.id (p ++ "/..") comps = some (root_id, comps ++ up) := by
  intro up
  induction up with
  | nil =>
    intro p sb comps fuel _ _ ha _
    simp only [AscendsTo] at ha
    unfold ascend
    simp [ha]
  | cons n up ih =>
    intro p sb comps fuel hs hd ha hf
    obtain ⟨hne, hn, hrest⟩ := ha
    obtain ⟨dir, sbp, hopen, hfstat, hstatp, hdp, hidp, hmem, hd1, hd2, hself, huniq⟩ :=
      wf.dotdot p sb hs hd hne
    cases fuel with
    | zero => simp at hf
    | succ fuel =>
      have hscan : scan_entries h (p ++ "/.." ++ "/") sb.id dir.entries = some (name sb.id) :=
        scan_entries_unique h _ sb.id _ dir.entries hmem hd1 hd2 hself huniq
      unfold ascend
      rw [if_neg hne]
      simp only [hopen, hscan, hfstat]
      rw [append_dotdot]
      have := ih (p ++ "/..") sbp (comps ++ [name sb.id]) fuel hstatp hdp
        (by rw [hidp]; exact hrest) (by simpa using hf)
      rw [this, hn]
      simp

theorem foldl_append_slash (l : List String) (s : String) :
    l.foldl (fun real_path i => real_path ++ (i ++ "/")) s =
      l.foldl (fun s n => s ++ n ++ "/") s := by
  induction l generalizing s with
  | nil => rfl
  | cons a l ih => simp only [List.foldl_cons]; rw [ih, String.append_assoc]

theorem build_real_path_eq (comps : List String) :
    build_real_path comps = canonical comps.reverse :=
  foldl_append_slash comps.reverse "/"

theorem get_real_directory_of_lineage (h : Host) (root_id : file_id)
    (parent : file_id → file_id) (name : file_id → String)
    (wf : WellFormedTree h root_id parent name) (path : String) (sb : StatBuf)
    (names : List String) (fuel : Nat)
    (hs : h.stat path = some sb) (hd : S_ISDIR sb.st_mode = true)
    (hl : Lineage root_id parent name sb.id names) (hf : names.length ≤ fuel) :
    get_real_directory h fuel path = some (.ok (canonical names)) := by
  obtain ⟨sbr, hr, hrid⟩ := wf.root_stat
  have ha := ascend_lineage h root_id parent name wf names.reverse path sb [] fuel hs hd hl
    (by simpa using hf)
  unfold get_real_directory
  simp only [hs, hr, hrid, ha]
  simp [build_real_path_eq]

/-! ## Path resolution on a tree host -/

theorem Tree.walk_append_slash (t : Tree) (cs ds : List Char) (st : Option Nat × List Char) :
    t.walk st (cs ++ '/' :: ds) = t.walk (t.walk st cs, []) ds := by
  induction cs generalizing st with
  | nil =>
    obtain ⟨cur, comp⟩ := st
    simp [Tree.walk]
  | cons c cs ih =>
    obtain ⟨cur, comp⟩ := st
    by_cases hc : c = '/'
    · simp [Tree.walk, hc, ih]
    · simp [Tree.walk, hc, ih]

theorem Tree.walk_noslash (t : Tree) (cs : List Char) (hcs : '/' ∉ cs) (cur : Option Nat)
    (comp : List Char) : t.walk (cur, comp) cs = t.step cur (comp ++ cs) := by
  induction cs generalizing comp with
  | nil => simp [Tree.walk]
  | cons c cs ih =>
    have hc : c ≠ '/' := fun h => hcs (by simp [h])
    have hcs2 : '/' ∉ cs := fun h => hcs (by simp [h])
    simp [Tree.walk, hc, ih hcs2]

theorem Tree.resolve_append_slash (t : Tree) (p : String) (hp : p.data ≠ []) (ds : List Char) :
    t.resolve (p ++ ⟨'/' :: ds⟩) = t.walk (t.resolve p, []) ds := by
  unfold Tree.resolve
  rw [String.data_append]
  cases hpd : p.data with
  | nil => exact absurd hpd hp
  | cons c cs =>
    simp only [List.cons_append]
    rw [← List.cons_append, Tree.walk_append_slash]

theorem Tree.resolve_dotdot (t : Tree) (p : String) (hp : p.data ≠ []) :
    t.resolve (p ++ "/..") = t.step (t.resolve p) ['.', '.'] := by
  have : ("/.." : String) = ⟨'/' :: ['.', '.']⟩ := rfl
  rw [this, Tree.resolve_append_slash t p hp, Tree.walk_noslash t _ (by decide)]
  rfl

theorem Tree.resolve_entry (t : Tree) (p e : String) (hp : p.data ≠ []) (he : '/' ∉ e.data) :
    t.resolve (p ++ "/" ++ e) = t.step (t.resolve p) e.data := by
  have : p ++ "/" ++ e = p ++ ⟨'/' :: e.data⟩ := by
    rw [String.append_assoc]; rfl
  rw [this, Tree.resolve_append_slash t p hp, Tree.walk_noslash t _ he]
  rfl

theorem mem_of_lookup (l : List (String × Nat)) (k : String) (b : Nat)
    (h : l.lookup k = some b) : (k, b) ∈ l := by
  induction l with
  | nil => simp at h
  | cons a l ih =>
    obtain ⟨k2, b2⟩ := a
    rw [List.lookup_cons] at h
    by_cases hk : k = k2
    · subst hk
      simp at h
      simp [h]
    · have : (k == k2) = false := by simpa using hk
      rw [this] at h
      exact List.mem_cons_of_mem _ (ih h)

theorem Tree.step_mem (t : Tree) (hv : t.Valid) (cur : Option Nat) (comp : List Char) (m : Nat)
    (hcur : ∀ n, cur = some n → n ∈ t.nodes) (h : t.step cur comp = some m) : m ∈ t.nodes := by
  obtain ⟨_, _, _, hpar, hlist, _⟩ := hv
  cases cur with
  | none => simp [Tree.step] at h
  | some n =>
    have hn := hcur n rfl
    simp only [Tree.step, Option.bind] at h
    split_ifs at h with h1 h2 h3
    · simp at h; exact h ▸ hn
    · simp at h; exact h ▸ (hpar n hn).1
    · exact (hlist n hn _ (mem_of_lookup _ _ _ h)).1

theorem Tree.walk_mem (t : Tree) (hv : t.Valid) (cs : List Char) (cur : Option Nat)
    (comp : List Char) (m : Nat) (hcur : ∀ n, cur = some n → n ∈ t.nodes)
    (h : t.walk (cur, comp) cs = some m) : m ∈ t.nodes := by
  induction cs generalizing cur comp with
  | nil => exact t.step_mem hv cur comp m hcur h
  | cons c cs ih =>
    simp only [Tree.walk] at h
    split_ifs at h with hc
    · exact ih _ _ (fun n hn => t.step_mem hv cur comp n hcur hn) h
    · exact ih _ _ hcur h

theorem Tree.resolve_mem (t : Tree) (hv : t.Valid) (p : String) (m : Nat)
    (h : t.resolve p = some m) : m ∈ t.nodes := by
  unfold Tree.resolve at h
  split at h
  · simp at h
  · refine t.walk_mem hv _ _ _ m ?_ h
    intro n hn
    simp at hn
    subst hn
    split_ifs
    · exact hv.1
    · exact hv.2.1

theorem Tree.resolve_data_ne (t : Tree) (p : String) (m : Nat) (h : t.resolve p = some m) :
    p.data ≠ [] := by
  intro hp
  simp [Tree.resolve, hp] at h

theorem Tree.S_ISDIR_statOf (t : Tree) (n : Nat) : S_ISDIR (t.statOf n).st_mode = t.isDir n := by
  unfold Tree.statOf
  cases t.isDir n
  · show S_ISDIR 0o100644 = false
    decide
  · show S_ISDIR 0o040755 = true
    decide

theorem Tree.resolve_root (t : Tree) (hv : t.Valid) : t.resolve "/" = some t.root := by
  have : ("/" : String).data = ['/'] := rfl
  simp [Tree.resolve, this, Tree.walk, Tree.step, hv.2.2.1]


theorem Tree.step_entry (t : Tree) (n : Nat) (hn : t.isDir n = true) (e : String)
    (he : validName e) : t.step (some n) e.data = (t.listing n).lookup e := by
  obtain ⟨h1, h2, h3, _⟩ := he
  simp [Tree.step, hn, h1, h2, h3]

theorem Tree.stat_some (t : Tree) (p : String) (sb : StatBuf) (h : t.host.stat p = some sb) :
    ∃ n, t.resolve p = some n ∧ sb = t.statOf n := by
  simp only [Tree.host, Option.map_eq_some'] at h
  obtain ⟨n, hn, rfl⟩ := h
  exact ⟨n, hn, rfl⟩

theorem Tree.lstat_ok (t : Tree) (p : String) (sb : StatBuf) (h : t.host.lstat p = .ok sb) :
    ∃ n, t.resolve p = some n ∧ sb = t.statOf n := by
  simp only [Tree.host] at h
  split at h
  · rename_i n hn
    injection h with h
    exact ⟨n, hn, h.symm⟩
  · cases h

theorem Tree.wellFormed (t : Tree) (hv : t.Valid) :
    WellFormedTree t.host t.rootId t.parentId t.nameId := by
  have hv2 := hv
  obtain ⟨_, _, hroot, hpar, hlist, hown⟩ := hv2
  refine ⟨⟨t.statOf t.root, ?_, rfl⟩, ?_⟩
  · simp [Tree.host, t.resolve_root hv]
  · intro p sb hs hd hne
    obtain ⟨n, hres, rfl⟩ := t.stat_some p sb hs
    have hn := t.resolve_mem hv p n hres
    have hp := t.resolve_data_ne p n hres
    rw [t.S_ISDIR_statOf] at hd
    have hnr : n ≠ t.root := by
      rintro rfl
      exact hne rfl
    have hpd := (hpar n hn).2 hd
    have hup : t.resolve (p ++ "/..") = some (t.parent n) := by
      rw [t.resolve_dotdot p hp, hres]
      simp [Tree.step, hd]
    have hp2 : (p ++ "/..").data ≠ [] := t.resolve_data_ne _ _ hup
    obtain ⟨hmem, huniq⟩ := hown n hn hd hnr
    obtain ⟨_, hvalid, hlook⟩ := hlist (t.parent n) (hpar n hn).1 _ hmem
    refine ⟨⟨"." :: ".." :: (t.listing (t.parent n)).map Prod.fst, some (t.statOf (t.parent n))⟩,
      t.statOf (t.parent n), ?_, rfl, ?_, ?_, rfl, ?_, ?_, ?_, ?_, ?_⟩
    · simp [Tree.host, hup, hpd]
    · simp [Tree.host, hup]
    · rw [t.S_ISDIR_statOf]; exact hpd
    · refine List.mem_cons_of_mem _ (List.mem_cons_of_mem _ ?_)
      exact List.mem_map.2 ⟨_, hmem, rfl⟩
    · intro h
      exact hvalid.2.1 (by simp [Tree.nameId, Tree.statOf, StatBuf.id] at h; simp [h])
    · intro h
      exact hvalid.2.2.1 (by simp [Tree.nameId, Tree.statOf, StatBuf.id] at h; simp [h])
    · refine ⟨t.statOf n, ?_, rfl⟩
      have : t.resolve (p ++ "/.." ++ "/" ++ t.name n) = some n := by
        rw [t.resolve_entry _ _ hp2 hvalid.2.2.2, hup, t.step_entry _ hpd _ hvalid]
        exact hlook
      simp [Tree.host, Tree.nameId, Tree.statOf, StatBuf.id] at this ⊢
      simp [this]
    · intro e he hd1 hd2 sbe hl hid
      have he2 : e ∈ (t.listing (t.parent n)).map Prod.fst := by
        rcases List.mem_cons.1 he with h1 | h1
        · exact absurd h1 hd1
        · rcases List.mem_cons.1 h1 with h2 | h2
          · exact absurd h2 hd2
          · exact h2
      obtain ⟨⟨e1, m⟩, hem, rfl⟩ := List.mem_map.1 he2
      obtain ⟨_, hvalide, hlooke⟩ := hlist (t.parent n) (hpar n hn).1 _ hem
      obtain ⟨m2, hres2, rfl⟩ := t.lstat_ok _ _ hl
      rw [t.resolve_entry _ _ hp2 hvalide.2.2.2, hup, t.step_entry _ hpd _ hvalide] at hres2
      simp only at hlooke hres2
      have hm : m2 = m := by
        rw [hlooke] at hres2
        injection hres2 with h
        exact h.symm
      have hmn : m = n := by
        subst hm
        simp [Tree.statOf, StatBuf.id] at hid
        exact hid
      exact huniq _ hem hmn

theorem ascend_reaches_root (h : Host) (root_id : file_id) (parent : file_id → file_id)
    (name : file_id → String) (wf : WellFormedTree h root_id parent name) :
    ∀ (fuel : Nat) (p : String) (sb : StatBuf) (comps comps2 : List String),
      h.stat p = some sb → S_ISDIR sb.st_mode = true →
      ascend h root_id fuel sb.id (p ++ "/..") comps = some (root_id, comps2) →
      ∃ up, comps2 = comps ++ up ∧ AscendsTo root_id parent name sb.id up ∧
        up.length ≤ fuel := by
  intro fuel
  induction fuel with
  | zero =>
    intro p sb comps comps2 _ _ ha
    unfold ascend at ha
    by_cases hid : sb.id = root_id
    · rw [if_pos hid] at ha
      simp only [Option.some.injEq, Prod.mk.injEq] at ha
      exact ⟨[], by simp [ha.2], hid, le_refl _⟩
    · rw [if_neg hid] at ha
      cases ha
  | succ fuel ih =>
    intro p sb comps comps2 hs hd ha
    unfold ascend at ha
    by_cases hid : sb.id = root_id
    · rw [if_pos hid] at ha
      simp only [Option.some.injEq, Prod.mk.injEq] at ha
      exact ⟨[], by simp [ha.2], hid, Nat.zero_le _⟩
    · rw [if_neg hid] at ha
      obtain ⟨dir, sbp, hopen, hfstat, hstatp, hdp, hidp, hmem, hd1, hd2, hself, huniq⟩ :=
        wf.dotdot p sb hs hd hid
      have hscan : scan_entries h (p ++ "/.." ++ "/") sb.id dir.entries = some (name sb.id) :=
        scan_entries_unique h _ sb.id _ dir.entries hmem hd1 hd2 hself huniq
      simp only [hopen, hscan, hfstat] at ha
      rw [append_dotdot] at ha
      obtain ⟨up, hup, hasc, hlen⟩ := ih (p ++ "/..") sbp _ comps2 hstatp hdp ha
      refine ⟨name sb.id :: up, by simp [hup], ⟨hid, rfl, hidp ▸ hasc⟩, ?_⟩
      simpa using hlen

theorem get_real_directory_ok (h : Host) (fuel : Nat) (path r : String)
    (hr : get_real_directory h fuel path = some (.ok r)) :
    ∃ sb sbr comps, h.stat path = some sb ∧ h.stat "/" = some sbr ∧
      ascend h sbr.id fuel sb.id (path ++ "/..") [] = some (sbr.id, comps) ∧
      r = build_real_path comps := by
  unfold get_real_directory at hr
  cases hs : h.stat path with
  | none => simp [hs] at hr
  | some sb =>
    cases hroot : h.stat "/" with
    | none => simp [hs, hroot] at hr
    | some sbr =>
      simp only [hs, hroot] at hr
      cases ha : ascend h sbr.id fuel sb.id (path ++ "/..") [] with
      | none => simp [ha] at hr
      | some st =>
        obtain ⟨cur, comps⟩ := st
        simp only [ha] at hr
        by_cases hc : cur = sbr.id
        · subst hc
          simp at hr
          exact ⟨sb, sbr, comps, rfl, rfl, ha, hr.symm⟩
        · simp [hc] at hr

theorem get_real_directory_idem_of_static (h : Host) (root_id : file_id)
    (parent : file_id → file_id) (name : file_id → String)
    (st : StaticTree h root_id parent name) (fuel : Nat) (D R : String)
    (hr : get_real_directory h fuel D = some (.ok R)) :
    get_real_directory h fuel R = some (.ok R) := by
  obtain ⟨sb, sbr, comps, hs, hroot, ha, rfl⟩ := get_real_directory_ok h fuel D R hr
  obtain ⟨sbr2, hroot2, hrid⟩ := st.root_stat
  rw [hroot] at hroot2
  injection hroot2 with hroot2
  subst hroot2
  rw [hrid] at ha
  cases hd : S_ISDIR sb.st_mode with
  | false =>
    exfalso
    obtain ⟨hne, hopen⟩ := st.notdir D sb hs hd
    unfold ascend at ha
    rw [if_neg hne] at ha
    cases fuel with
    | zero => cases ha
    | succ fuel =>
      simp only [hopen, Option.some.injEq, Prod.mk.injEq] at ha
      exact hne ha.1
  | true =>
    obtain ⟨up, hup, hasc, hlen⟩ :=
      ascend_reaches_root h root_id parent name st.toWellFormedTree fuel D sb [] comps hs hd ha
    simp only [List.nil_append] at hup
    subst hup
    have hlin : Lineage root_id parent name sb.id comps.reverse := by
      unfold Lineage
      rw [List.reverse_reverse]
      exact hasc
    obtain ⟨sbc, hsc, hidc, hdc⟩ := st.reach D sb comps.reverse hs hd hlin
    rw [build_real_path_eq]
    exact get_real_directory_of_lineage h root_id parent name st.toWellFormedTree _ sbc
      comps.reverse fuel hsc hdc (hidc ▸ hlin) (by simpa using hlen)

theorem canonical_append (l : List String) (e : String) :
    canonical (l ++ [e]) = canonical l ++ e ++ "/" := by
  simp [canonical, List.foldl_append]

theorem canonical_data (l : List String) :
    (∃ zs, (canonical l).data = '/' :: zs) ∧ ∃ ys, (canonical l).data = ys ++ ['/'] := by
  induction l using List.reverseRecOn with
  | nil => exact ⟨⟨[], rfl⟩, ⟨[], rfl⟩⟩
  | append_singleton l e ih =>
    obtain ⟨⟨zs, hz⟩, _⟩ := ih
    rw [canonical_append]
    simp only [String.data_append, hz]
    exact ⟨⟨zs ++ e.data ++ ['/'], by simp⟩, ⟨'/' :: zs ++ e.data, by simp⟩⟩


theorem Tree.step_nil_some (t : Tree) (cur : Option Nat) (d : Nat)
    (h : t.step cur [] = some d) : cur = some d ∧ t.isDir d = true := by
  cases cur with
  | none => simp [Tree.step] at h
  | some n =>
    by_cases h1 : t.isDir n = true
    · simp [Tree.step, h1] at h
      subst h
      exact ⟨rfl, h1⟩
    · simp [Tree.step, h1] at h

theorem Tree.walk_push (t : Tree) (cs e : List Char) (cur : Option Nat) (d : Nat)
    (hcs : cs = [] ∨ ∃ ys, cs = ys ++ ['/']) (hw : t.walk (cur, []) cs = some d)
    (he : '/' ∉ e) :
    t.walk (cur, []) (cs ++ e ++ ['/']) = t.step (t.step (some d) e) [] := by
  rcases hcs with rfl | ⟨ys, rfl⟩
  · simp only [Tree.walk] at hw
    obtain ⟨rfl, _⟩ := t.step_nil_some cur d hw
    rw [List.nil_append, t.walk_append_slash, t.walk_noslash e he]
    simp [Tree.walk]
  · rw [t.walk_append_slash] at hw
    simp only [Tree.walk] at hw
    obtain ⟨hy, _⟩ := t.step_nil_some _ d hw
    have : ys ++ ['/'] ++ e ++ ['/'] = ys ++ '/' :: (e ++ '/' :: []) := by simp
    rw [this, t.walk_append_slash, hy, t.walk_append_slash, t.walk_noslash e he]
    simp [Tree.walk]

theorem Tree.resolve_abs (t : Tree) (p : String) (zs : List Char) (hp : p.data = '/' :: zs) :
    t.resolve p = t.walk (some t.root, []) p.data := by
  simp [Tree.resolve, hp]

theorem Tree.resolve_canonical (t : Tree) (hv : t.Valid) :
    ∀ (up : List String) (n : Nat), n ∈ t.nodes → t.isDir n = true →
      AscendsTo t.rootId t.parentId t.nameId (1, n) up →
      t.resolve (canonical up.reverse) = some n := by
  have hv2 := hv
  obtain ⟨_, _, hroot, hpar, hlist, hown⟩ := hv2
  intro up
  induction up with
  | nil =>
    intro n _ _ ha
    simp only [AscendsTo, Tree.rootId, Prod.mk.injEq, true_and] at ha
    subst ha
    exact t.resolve_root hv
  | cons e up ih =>
    intro n hn hd ha
    obtain ⟨hne, he, hrest⟩ := ha
    have hnr : n ≠ t.root := by
      rintro rfl
      exact hne rfl
    have hpd := (hpar n hn).2 hd
    have hres := ih (t.parent n) (hpar n hn).1 hpd hrest
    obtain ⟨hmem, _⟩ := hown n hn hd hnr
    obtain ⟨_, hvalid, hlook⟩ := hlist (t.parent n) (hpar n hn).1 _ hmem
    obtain ⟨⟨zs, hz⟩, hys⟩ := canonical_data up.reverse
    rw [t.resolve_abs _ zs hz] at hres
    have he2 : e = t.name n := he
    subst he2
    rw [List.reverse_cons, canonical_append]
    have hdata : (canonical up.reverse ++ t.name n ++ "/").data =
        (canonical up.reverse).data ++ (t.name n).data ++ ['/'] := by
      simp only [String.data_append]
    have hhead : (canonical up.reverse ++ t.name n ++ "/").data =
        '/' :: (zs ++ (t.name n).data ++ ['/']) := by
      rw [hdata, hz]; rfl
    rw [t.resolve_abs _ _ hhead, hdata,
      t.walk_push _ _ _ (t.parent n) (Or.inr hys) hres hvalid.2.2.2,
      t.step_entry _ hpd _ hvalid]
    simp only at hlook
    rw [hlook]
    simp [Tree.step, hd]

theorem Tree.static (t : Tree) (hv : t.Valid) :
    StaticTree t.host t.rootId t.parentId t.nameId := by
  refine ⟨t.wellFormed hv, ?_, ?_⟩
  · intro p sb hs hd
    obtain ⟨n, hres, rfl⟩ := t.stat_some p sb hs
    rw [t.S_ISDIR_statOf] at hd
    have hp := t.resolve_data_ne p n hres
    refine ⟨?_, ?_⟩
    · intro hid
      have : n = t.root := by
        simpa [Tree.statOf, StatBuf.id, Tree.rootId] using hid
      subst this
      rw [hv.2.2.1] at hd
      cases hd
    · have hup : t.resolve (p ++ "/..") = none := by
        rw [t.resolve_dotdot p hp, hres]
        simp [Tree.step, hd]
      simp [Tree.host, hup]
  · intro p sb names hs hd hl
    obtain ⟨n, hres, rfl⟩ := t.stat_some p sb hs
    rw [t.S_ISDIR_statOf] at hd
    have hn := t.resolve_mem hv p n hres
    have := t.resolve_canonical hv names.reverse n hn hd hl
    rw [List.reverse_reverse] at this
    refine ⟨t.statOf n, ?_, rfl, ?_⟩
    · simp [Tree.host, this]
    · rw [t.S_ISDIR_statOf]; exact hd

theorem demoTree_valid : demoTree.Valid := by decide

/-! ## Claims on `get_real_directory` -/

/-- C1: on a host that is a well-formed directory tree, for every path that
`stat` resolves to the directory with the root-to-leaf names `n1, ..., nk`,
`get_real_directory` returns `"/" ++ n1 ++ "/" ++ ... ++ nk ++ "/"` as soon as
the loop may run `k` times; the text of the path plays no part. -/
theorem get_real_directory_tree (h : Host) (root_id : file_id)
    (parent : file_id → file_id) (name : file_id → String)
    (wf : WellFormedTree h root_id parent name) (path : String) (sb : StatBuf)
    (names : List String) (hs : h.stat path = some sb) (hd : S_ISDIR sb.st_mode = true)
    (hl : Lineage root_id parent name sb.id names) :
    ∀ fuel, names.length ≤ fuel →
      get_real_directory h fuel path = some (.ok (canonical names)) :=
  fun fuel hf => get_real_directory_of_lineage h root_id parent name wf path sb names fuel hs hd hl hf

/-- C1 at the tree `/tmp/a/b/c`, working directory `/tmp/a/b`: the relative
path `c/./../../b/c` yields the literal `/tmp/a/b/c/`. -/
theorem get_real_directory_tree_witness :
    WellFormedTree demoTree.host demoTree.rootId demoTree.parentId demoTree.nameId ∧
      demoTree.host.stat "c/./../../b/c" = some ⟨1, 13, 0o040755, 0⟩ ∧
      Lineage demoTree.rootId demoTree.parentId demoTree.nameId (1, 13) ["tmp", "a", "b", "c"] ∧
      get_real_directory demoTree.host 4 "c/./../../b/c" = some (.ok "/tmp/a/b/c/") :=
  ⟨demoTree.wellFormed demoTree_valid, by decide, by decide,
    get_real_directory_tree demoTree.host _ _ _ (demoTree.wellFormed demoTree_valid)
      "c/./../../b/c" ⟨1, 13, 0o040755, 0⟩ ["tmp", "a", "b", "c"] (by decide) (by decide)
      (by decide) 4 (by decide)⟩

/-- On the tree `/tmp/a/b/c`, every path that denotes the directory `c` yields
the literal `/tmp/a/b/c/`. -/
theorem demoTree_every_path_to_c (p : String) (fuel : Nat)
    (hp : demoTree.host.stat p = some ⟨1, 13, 0o040755, 0⟩) (hf : 4 ≤ fuel) :
    get_real_directory demoTree.host fuel p = some (.ok "/tmp/a/b/c/") :=
  get_real_directory_of_lineage demoTree.host _ _ _ (demoTree.wellFormed demoTree_valid) p
    ⟨1, 13, 0o040755, 0⟩ ["tmp", "a", "b", "c"] fuel hp (by decide) (by decide) hf

/-- C3: for every path whose `stat` identity is that of `"/"`,
`get_real_directory` returns `"/"`; the loop exits at its first test with no
component pushed, so that a bound of zero runs of the loop body is enough and
no directory is opened. -/
theorem get_real_directory_root (h : Host) (path : String) (sb sbr : StatBuf)
    (hs : h.stat path = some sb) (hr : h.stat "/" = some sbr) (hid : sb.id = sbr.id) :
    ascend h sbr.id 0 sb.id (path ++ "/..") [] = some (sbr.id, []) ∧
      get_real_directory h 0 path = some (.ok "/") ∧
      ∀ fuel, get_real_directory h fuel path = some (.ok "/") := by
  have ha : ∀ fuel, ascend h sbr.id fuel sb.id (path ++ "/..") [] = some (sbr.id, []) := by
    intro fuel
    unfold ascend
    simp [hid]
  have hg : ∀ fuel, get_real_directory h fuel path = some (.ok "/") := by
    intro fuel
    unfold get_real_directory
    simp only [hs, hr, ha fuel]
    simp [build_real_path]
  exact ⟨ha 0, hg 0, hg⟩

/-- C3 at the tree `/tmp/a/b/c`: the path `c/../../../..` denotes the root. -/
theorem get_real_directory_root_witness :
    demoTree.host.stat "c/../../../.." = some ⟨1, 2, 0o040755, 0⟩ ∧
      demoTree.host.stat "/" = some ⟨1, 2, 0o040755, 0⟩ ∧
      get_real_directory demoTree.host 0 "c/../../../.." = some (.ok "/") :=
  ⟨by decide, by decide,
    (get_real_directory_root demoTree.host "c/../../../.." ⟨1, 2, 0o040755, 0⟩
      ⟨1, 2, 0o040755, 0⟩ (by decide) (by decide) rfl).2.1⟩

/-! ## Claims on `get_symlink_chain_target` -/

theorem follow_chain_lstat_error (h : Host) (fuel : Nat) (path : String) (seen : List file_id)
    (e : Errno) (hl : h.lstat path = .error e) :
    follow_chain h (fuel + 1) path seen = some (.error DanglingOrMissing) := by
  simp [follow_chain, hl, DanglingOrMissing]

theorem follow_chain_revisit (h : Host) (fuel : Nat) (path : String) (seen : List file_id)
    (sb : StatBuf) (hl : h.lstat path = .ok sb) (hs : sb.id ∈ seen) :
    follow_chain h (fuel + 1) path seen = some (.error RecursiveChain) := by
  simp [follow_chain, hl, hs, RecursiveChain]

theorem follow_chain_not_link (h : Host) (fuel : Nat) (path : String) (seen : List file_id)
    (sb : StatBuf) (hl : h.lstat path = .ok sb) (hs : sb.id ∉ seen)
    (hlnk : S_ISLNK sb.st_mode = false) :
    follow_chain h (fuel + 1) path seen = some (.ok path) := by
  simp [follow_chain, hl, hs, hlnk]

theorem follow_chain_bad_size (h : Host) (fuel : Nat) (path : String) (seen : List file_id)
    (sb : StatBuf) (hl : h.lstat path = .ok sb) (hs : sb.id ∉ seen)
    (hlnk : S_ISLNK sb.st_mode = true) (hsz : sb.st_size ≤ 0) :
    follow_chain h (fuel + 1) path seen = some (.error InvalidLinkLength) := by
  simp [follow_chain, hl, hs, hlnk, hsz, InvalidLinkLength]

theorem follow_chain_read_failed (h : Host) (fuel : Nat) (path : String) (seen : List file_id)
    (sb : StatBuf) (hl : h.lstat path = .ok sb) (hs : sb.id ∉ seen)
    (hlnk : S_ISLNK sb.st_mode = true) (hsz : 0 < sb.st_size)
    (hr : h.readlink path (sb.st_size + 1).toNat = none) :
    follow_chain h (fuel + 1) path seen = some (.error LinkRaceModified) := by
  simp [follow_chain, hl, hs, hlnk, not_le.2 hsz, hr, LinkRaceModified]

theorem follow_chain_read_rejected (h : Host) (fuel : Nat) (path : String)
    (seen : List file_id) (sb : StatBuf) (t : String) (hl : h.lstat path = .ok sb)
    (hs : sb.id ∉ seen) (hlnk : S_ISLNK sb.st_mode = true) (hsz : 0 < sb.st_size)
    (hr : h.readlink path (sb.st_size + 1).toNat = some t)
    (hn : t.length = 0 ∨ sb.st_size < t.length) :
    follow_chain h (fuel + 1) path seen = some (.error LinkRaceModified) := by
  have : ¬ ((t.length : Int) > 0 ∧ (t.length : Int) ≤ sb.st_size) := by
    rintro ⟨h1, h2⟩
    rcases hn with h0 | h0
    · rw [h0] at h1; simp at h1
    · omega
  simp only [follow_chain, hl, hs, hlnk, not_le.2 hsz, hr, LinkRaceModified]
  simp only [this]
  simp

theorem follow_chain_read_accepted (h : Host) (fuel : Nat) (path : String)
    (seen : List file_id) (sb : StatBuf) (t : String) (hl : h.lstat path = .ok sb)
    (hs : sb.id ∉ seen) (hlnk : S_ISLNK sb.st_mode = true) (hsz : 0 < sb.st_size)
    (hr : h.readlink path (sb.st_size + 1).toNat = some t)
    (h0 : 0 < t.length) (h1 : (t.length : Int) ≤ sb.st_size) :
    follow_chain h (fuel + 1) path seen =
      follow_chain h fuel (next_path path t) (sb.id :: seen) := by
  have h0' : (t.length : Int) > 0 := by exact_mod_cast h0
  simp only [follow_chain, hl, hs, hlnk, not_le.2 hsz, hr, next_path]
  simp only [h0', h1]
  by_cases hh : t.data.head? = some '/'
  · simp [hh]
  · simp [hh]


/-- Where the working paths are formed as the program forms them, a link
that leads to a link that leads back to the identity of the first is reported
as "Recursive symlink chain.". -/
theorem chain_cycle_detected (h : Host) (fuel : Nat) (A tA tB : String)
    (sbA sbB sbC : StatBuf) (hA : A.length ≠ 0)
    (hlA : h.lstat A = .ok sbA) (hkA : S_ISLNK sbA.st_mode = true) (hsA : 0 < sbA.st_size)
    (hrA : h.readlink A (sbA.st_size + 1).toNat = some tA)
    (h0A : 0 < tA.length) (h1A : (tA.length : Int) ≤ sbA.st_size)
    (hlB : h.lstat (next_path A tA) = .ok sbB) (hkB : S_ISLNK sbB.st_mode = true)
    (hsB : 0 < sbB.st_size)
    (hrB : h.readlink (next_path A tA) (sbB.st_size + 1).toNat = some tB)
    (h0B : 0 < tB.length) (h1B : (tB.length : Int) ≤ sbB.st_size)
    (hlC : h.lstat (next_path (next_path A tA) tB) = .ok sbC) (hid : sbC.id = sbA.id) :
    get_symlink_chain_target h (fuel + 3) A = some (.error RecursiveChain) := by
  unfold get_symlink_chain_target
  rw [if_neg hA, follow_chain_read_accepted h (fuel + 2) A [] sbA tA hlA (List.not_mem_nil _)
    hkA hsA hrA h0A h1A]
  by_cases hBA : sbB.id ∈ [sbA.id]
  · rw [follow_chain_revisit h (fuel + 1) _ _ sbB hlB hBA]
  · rw [follow_chain_read_accepted h (fuel + 1) _ _ sbB tB hlB hBA hkB hsB hrB h0B h1B,
      follow_chain_revisit h fuel _ _ sbC hlC (by simp [hid])]

theorem rfind_slash_none (cs : List Char) (h : '/' ∉ cs) : rfind_slash cs = none := by
  induction cs with
  | nil => rfl
  | cons c cs ih =>
    have hc : c ≠ '/' := fun e => h (by simp [e])
    have hcs : '/' ∉ cs := fun e => h (by simp [e])
    simp [rfind_slash, ih hcs, hc]

theorem get_directory_no_slash (p : String) (h : '/' ∉ p.data) : get_directory p = "." := by
  simp [get_directory, rfind_slash_none p.data h]

/-- A symbolic link named without a `'/'` whose target `t` is relative is
never followed to `t`: the working path becomes `"." ++ t`, and the call
throws "Dangling or nonexistent symlink chain." unless an entry of that name
exists. -/
theorem chain_bare_name_dangling (h : Host) (fuel : Nat) (A t : String) (sb : StatBuf)
    (e : Errno) (hA : A.length ≠ 0) (hns : '/' ∉ A.data)
    (hl : h.lstat A = .ok sb) (hk : S_ISLNK sb.st_mode = true) (hs : 0 < sb.st_size)
    (hr : h.readlink A (sb.st_size + 1).toNat = some t)
    (h0 : 0 < t.length) (h1 : (t.length : Int) ≤ sb.st_size)
    (hrel : t.data.head? ≠ some '/') (hdot : h.lstat ("." ++ t) = .error e) :
    next_path A t = "." ++ t ∧
      get_symlink_chain_target h (fuel + 2) A = some (.error DanglingOrMissing) := by
  have hn : next_path A t = "." ++ t := by
    simp [next_path, hrel, get_directory_no_slash A hns]
  refine ⟨hn, ?_⟩
  unfold get_symlink_chain_target
  rw [if_neg hA, follow_chain_read_accepted h (fuel + 1) A [] sb t hl (List.not_mem_nil _) hk hs
    hr h0 h1, hn, follow_chain_lstat_error h fuel _ _ e hdot]

/-- C4, on the code: in a working directory that holds the links `a -> b` and
`b -> a`, both relative, `get_symlink_chain_target("a")` reads `b`, forms the
working path `get_directory("a") + "b" = ".b"`, fails to `lstat` it and throws
"Dangling or nonexistent symlink chain.", not "Recursive symlink chain.". -/
theorem chain_cycle_in_cwd :
    cwdLinks.lstat "a" = .ok ⟨1, 101, 0o120777, 1⟩ ∧ S_ISLNK 0o120777 = true ∧
      cwdLinks.readlink "a" 2 = some "b" ∧
      cwdLinks.lstat "b" = .ok ⟨1, 102, 0o120777, 1⟩ ∧
      cwdLinks.readlink "b" 2 = some "a" ∧
      cwdLinks.lstat ".b" = .error .ENOENT ∧
      ∀ fuel, get_symlink_chain_target cwdLinks (fuel + 2) "a" =
        some (.error DanglingOrMissing) := by
  refine ⟨by decide, by decide, by decide, by decide, by decide, by decide, ?_⟩
  intro fuel
  have h1 : follow_chain cwdLinks (fuel + 1 + 1) "a" [] =
      follow_chain cwdLinks (fuel + 1) (next_path "a" "b") [(1, 101)] :=
    follow_chain_read_accepted cwdLinks (fuel + 1) "a" [] ⟨1, 101, 0o120777, 1⟩ "b"
      (by decide) (by decide) (by decide) (by decide) (by decide) (by decide) (by decide)
  have h2 : next_path "a" "b" = ".b" := by decide
  have h3 := follow_chain_lstat_error cwdLinks fuel ".b" [(1, 101)] .ENOENT (by decide)
  have h4 : ("a" : String).length ≠ 0 := by decide
  unfold get_symlink_chain_target
  rw [if_neg h4, h1, h2, h3]

/-- C5, on the code: in a working directory that holds the link `l -> f`
(relative) and the plain file `f`, whose real path is `/w/f`,
`get_symlink_chain_target("l")` forms the working path
`get_directory("l") + "f" = ".f"`, fails to `lstat` it and throws "Dangling or
nonexistent symlink chain.". -/
theorem chain_link_in_cwd :
    cwdLinks.lstat "l" = .ok ⟨1, 103, 0o120777, 1⟩ ∧ S_ISLNK 0o120777 = true ∧
      cwdLinks.readlink "l" 2 = some "f" ∧
      cwdLinks.lstat "f" = .ok ⟨1, 104, 0o100644, 0⟩ ∧ S_ISLNK 0o100644 = false ∧
      get_real_file cwdLinks 1 "f" = some (.ok "/w/f") ∧
      cwdLinks.lstat ".f" = .error .ENOENT ∧
      ∀ fuel, get_symlink_chain_target cwdLinks (fuel + 2) "l" =
        some (.error DanglingOrMissing) := by
  refine ⟨by decide, by decide, by decide, by decide, by decide, by decide, by decide, ?_⟩
  intro fuel
  have h1 : follow_chain cwdLinks (fuel + 1 + 1) "l" [] =
      follow_chain cwdLinks (fuel + 1) (next_path "l" "f") [(1, 103)] :=
    follow_chain_read_accepted cwdLinks (fuel + 1) "l" [] ⟨1, 103, 0o120777, 1⟩ "f"
      (by decide) (by decide) (by decide) (by decide) (by decide) (by decide) (by decide)
  have h2 : next_path "l" "f" = ".f" := by decide
  have h3 := follow_chain_lstat_error cwdLinks fuel ".f" [(1, 103)] .ENOENT (by decide)
  have h4 : ("l" : String).length ≠ 0 := by decide
  unfold get_symlink_chain_target
  rw [if_neg h4, h1, h2, h3]

theorem get_real_directory_fuel_succ (h : Host) (fuel : Nat) (path : String)
    (r : Except Exception String) (hr : get_real_directory h fuel path = some r) :
    get_real_directory h (fuel + 1) path = some r := by
  have hasc : ∀ (root_id : file_id) (fuel : Nat) (cur : file_id) (up : String)
      (comps : List String) (st : file_id × List String),
      ascend h root_id fuel cur up comps = some st →
      ascend h root_id (fuel + 1) cur up comps = some st := by
    intro root_id fuel
    induction fuel with
    | zero =>
      intro cur up comps st ha
      unfold ascend at ha
      by_cases hc : cur = root_id
      · rw [if_pos hc] at ha
        unfold ascend
        rw [if_pos hc]
        exact ha
      · rw [if_neg hc] at ha
        cases ha
    | succ fuel ih =>
      intro cur up comps st ha
      unfold ascend at ha
      unfold ascend
      by_cases hc : cur = root_id
      · rw [if_pos hc] at ha ⊢
        exact ha
      · rw [if_neg hc] at ha ⊢
        simp only at ha ⊢
        cases ho : h.opendir up with
        | none => simpa [ho] using ha
        | some dir =>
          simp only [ho] at ha ⊢
          cases hsc : scan_entries h (up ++ "/") cur dir.entries with
          | none => simpa [hsc] using ha
          | some d_name =>
            simp only [hsc] at ha ⊢
            cases hf : dir.fstat with
            | none =>
              simp only [hf] at ha ⊢
              exact ih _ _ _ _ ha
            | some sb =>
              simp only [hf] at ha ⊢
              exact ih _ _ _ _ ha
  unfold get_real_directory at hr ⊢
  cases hs : h.stat path with
  | none => simpa [hs] using hr
  | some sb =>
    cases hroot : h.stat "/" with
    | none => simpa [hs, hroot] using hr
    | some sbr =>
      simp only [hs, hroot] at hr ⊢
      cases ha : ascend h sbr.id fuel sb.id (path ++ "/..") [] with
      | none => simp [ha] at hr
      | some st =>
        rw [hasc _ _ _ _ _ _ ha]
        simpa [ha] using hr

/-- C6, as stated, fails when the target shrank: `lstat` measured five bytes,
`readlink` returns the two bytes `/f`, and the link is followed: the call
returns `/f` instead of throwing "link modified during check". -/
theorem link_shrunk_followed :
    shrunkLink.lstat "/l" = .ok ⟨1, 5, 0o120777, 5⟩ ∧ S_ISLNK 0o120777 = true ∧
      shrunkLink.readlink "/l" 6 = some "/f" ∧ ("/f" : String).length = 2 ∧
      get_symlink_chain_target shrunkLink 2 "/l" = some (.ok "/f") ∧
      get_symlink_chain_target shrunkLink 2 "/l" ≠ some (.error LinkRaceModified) := by
  decide

/-! ## Claims on `get_real_path` -/

theorem get_real_path_not_dir (h : Host) (sb0 : StatBuf) (fuel : Nat) (p : String)
    (sb : StatBuf) (b : Bool) (hp : p.length ≠ 0) (hl : h.lstat p = .ok sb)
    (hd : S_ISDIR sb.st_mode = false) :
    get_real_path h sb0 fuel p b =
      if b then get_symlink_chain_target h fuel p else get_real_file h fuel p := by
  unfold get_real_path classify_lstat
  rw [if_neg hp]
  simp only [hl, hd]
  simp

/-- C7: for a non-empty path that `lstat` reports as existing and not a
directory, `get_real_path(p, false)` is `get_real_directory(get_directory(p))`
followed by `get_base(p)`: it succeeds, fails or runs out of fuel as
`get_real_directory` does on the directory part, and the base name is
appended as it is.  On a well-formed tree, when the directory part denotes
the directory of root-to-leaf names `n1, ..., nk`, the result is
`"/" ++ n1 ++ "/" ++ ... ++ nk ++ "/" ++ get_base(p)`. -/
theorem get_real_path_file (h : Host) (sb0 : StatBuf) (fuel : Nat) (p : String)
    (sb : StatBuf) (hp : p.length ≠ 0) (hl : h.lstat p = .ok sb)
    (hd : S_ISDIR sb.st_mode = false) :
    get_real_path h sb0 fuel p false = get_real_file h fuel p ∧
    (∀ d, get_real_directory h fuel (get_directory p) = some (.ok d) →
      get_real_path h sb0 fuel p false = some (.ok (d ++ get_base p))) ∧
    (∀ e, get_real_directory h fuel (get_directory p) = some (.error e) →
      get_real_path h sb0 fuel p false = some (.error e)) ∧
    (get_real_directory h fuel (get_directory p) = none →
      get_real_path h sb0 fuel p false = none) ∧
    (∀ root_id parent name sbd names, WellFormedTree h root_id parent name →
      h.stat (get_directory p) = some sbd → S_ISDIR sbd.st_mode = true →
      Lineage root_id parent name sbd.id names → names.length ≤ fuel →
      get_real_path h sb0 fuel p false = some (.ok (canonical names ++ get_base p))) := by
  have hg := get_real_path_not_dir h sb0 fuel p sb false hp hl hd
  simp only [Bool.false_eq_true, if_false] at hg
  have hd1 : ∀ d, get_real_directory h fuel (get_directory p) = some (.ok d) →
      get_real_path h sb0 fuel p false = some (.ok (d ++ get_base p)) := by
    intro d hdd
    rw [hg]
    unfold get_real_file
    rw [hdd]
  refine ⟨hg, hd1, ?_, ?_, ?_⟩
  · intro e he
    rw [hg]
    unfold get_real_file
    rw [he]
  · intro hn
    rw [hg]
    unfold get_real_file
    rw [hn]
  · intro root_id parent name sbd names wf hs hdd hlin hf
    exact hd1 _ (get_real_directory_of_lineage h root_id parent name wf _ sbd names fuel hs hdd
      hlin hf)

/-- C7 at the tree `/tmp/a/b/c` with the plain file `/tmp/a/f.txt`, from the
working directory `/tmp/a/b`: `c/../../f.txt` yields `/tmp/a/f.txt`. -/
theorem get_real_path_file_witness :
    ("c/../../f.txt" : String).length ≠ 0 ∧
      demoTree.host.lstat "c/../../f.txt" = .ok ⟨1, 20, 0o100644, 0⟩ ∧
      S_ISDIR 0o100644 = false ∧
      get_real_path demoTree.host ⟨0, 0, 0, 0⟩ 2 "c/../../f.txt" false =
        some (.ok "/tmp/a/f.txt") :=
  ⟨by decide, by decide, by decide,
    (get_real_path_file demoTree.host ⟨0, 0, 0, 0⟩ 2 "c/../../f.txt" ⟨1, 20, 0o100644, 0⟩
      (by decide) (by decide) (by decide)).2.1 "/tmp/a/" (by decide)⟩

/-- C8: on the empty string `get_real_path` throws
`invalid_argument("The path specified is empty.")` for both values of the
flag, and `get_symlink_chain_target` throws `invalid_argument("Empty path.")`,
on every host, whatever the stack holds and with no run of any loop: no
answer of the host is used. -/
theorem empty_path_rejected (h : Host) (sb0 : StatBuf) (fuel : Nat) (b : Bool) :
    get_real_path h sb0 fuel "" b =
        some (.error (.invalid_argument "The path specified is empty.")) ∧
      get_symlink_chain_target h fuel "" = some (.error (.invalid_argument "Empty path.")) ∧
      get_real_path h sb0 fuel "" b = some (.error EmptyPath) ∧
      get_symlink_chain_target h fuel "" = some (.error EmptyChainPath) := by
  refine ⟨?_, ?_, ?_, ?_⟩ <;> simp [get_real_path, get_symlink_chain_target, EmptyPath, EmptyChainPath]


theorem get_real_directory_errors (h : Host) (fuel : Nat) (p : String) (e : Exception)
    (he : get_real_directory h fuel p = some (.error e)) :
    e = NotFoundDirectory ∨ e = RootUnreadable ∨ e = BrokenChain := by
  unfold get_real_directory at he
  cases hs : h.stat p with
  | none =>
    simp [hs] at he
    exact Or.inl he.symm
  | some sb =>
    cases hroot : h.stat "/" with
    | none =>
      simp [hs, hroot] at he
      exact Or.inr (Or.inl he.symm)
    | some sbr =>
      simp only [hs, hroot] at he
      cases ha : ascend h sbr.id fuel sb.id (p ++ "/..") [] with
      | none => simp [ha] at he
      | some st =>
        obtain ⟨cur, comps⟩ := st
        simp only [ha] at he
        by_cases hc : cur = sbr.id
        · simp [hc] at he
        · simp [hc] at he
          exact Or.inr (Or.inr he.symm)

theorem get_real_file_errors (h : Host) (fuel : Nat) (p : String) (e : Exception)
    (he : get_real_file h fuel p = some (.error e)) :
    e = NotFoundDirectory ∨ e = RootUnreadable ∨ e = BrokenChain := by
  unfold get_real_file at he
  cases hd : get_real_directory h fuel (get_directory p) with
  | none => simp [hd] at he
  | some r =>
    cases r with
    | error e2 =>
      simp [hd] at he
      subst he
      exact get_real_directory_errors h fuel _ _ hd
    | ok d => simp [hd] at he

theorem follow_chain_errors (h : Host) (fuel : Nat) (p : String) (seen : List file_id)
    (e : Exception) (he : follow_chain h fuel p seen = some (.error e)) :
    e = DanglingOrMissing ∨ e = RecursiveChain ∨ e = InvalidLinkLength ∨
      e = LinkRaceModified := by
  induction fuel generalizing p seen with
  | zero => simp [follow_chain] at he
  | succ fuel ih =>
    cases hl : h.lstat p with
    | error er =>
      rw [follow_chain_lstat_error h fuel p seen er hl] at he
      simp at he
      exact Or.inl he.symm
    | ok sb =>
      by_cases hs : sb.id ∈ seen
      · rw [follow_chain_revisit h fuel p seen sb hl hs] at he
        simp at he
        exact Or.inr (Or.inl he.symm)
      · cases hlnk : S_ISLNK sb.st_mode with
        | false =>
          rw [follow_chain_not_link h fuel p seen sb hl hs hlnk] at he
          simp at he
        | true =>
          by_cases hsz : sb.st_size ≤ 0
          · rw [follow_chain_bad_size h fuel p seen sb hl hs hlnk hsz] at he
            simp at he
            exact Or.inr (Or.inr (Or.inl he.symm))
          · have hsz2 : 0 < sb.st_size := not_le.1 hsz
            cases hr : h.readlink p (sb.st_size + 1).toNat with
            | none =>
              rw [follow_chain_read_failed h fuel p seen sb hl hs hlnk hsz2 hr] at he
              simp at he
              exact Or.inr (Or.inr (Or.inr he.symm))
            | some t =>
              by_cases hn : t.length = 0 ∨ sb.st_size < t.length
              · rw [follow_chain_read_rejected h fuel p seen sb t hl hs hlnk hsz2 hr hn] at he
                simp at he
                exact Or.inr (Or.inr (Or.inr he.symm))
              · have h0 : 0 < t.length := by
                  rcases Nat.eq_zero_or_pos t.length with h0 | h0
                  · exact absurd (Or.inl h0) hn
                  · exact h0
                have h1 : (t.length : Int) ≤ sb.st_size := by
                  by_contra hc
                  exact hn (Or.inr (not_le.1 hc))
                rw [follow_chain_read_accepted h fuel p seen sb t hl hs hlnk hsz2 hr h0 h1] at he
                exact ih _ _ he

theorem get_symlink_chain_target_errors (h : Host) (fuel : Nat) (p : String) (e : Exception)
    (he : get_symlink_chain_target h fuel p = some (.error e)) :
    e = EmptyChainPath ∨ e = DanglingOrMissing ∨ e = RecursiveChain ∨ e = InvalidLinkLength ∨
      e = LinkRaceModified ∨ e = NotFoundDirectory ∨ e = RootUnreadable ∨ e = BrokenChain := by
  unfold get_symlink_chain_target at he
  by_cases hp : p.length = 0
  · rw [if_pos hp] at he
    simp at he
    exact Or.inl he.symm
  · rw [if_neg hp] at he
    cases hf : follow_chain h fuel p [] with
    | none => simp [hf] at he
    | some r =>
      cases r with
      | error e2 =>
        simp [hf] at he
        subst he
        rcases follow_chain_errors h fuel p [] _ hf with h1 | h1 | h1 | h1 <;> simp [h1]
      | ok q =>
        simp only [hf] at he
        rcases get_real_file_errors h fuel q e he with h1 | h1 | h1 <;> simp [h1]

theorem routed_ne_NotFound (h : Host) (fuel : Nat) (p : String) (sb : StatBuf) (b : Bool) :
    (if S_ISDIR sb.st_mode then get_real_directory h fuel p
      else if b then get_symlink_chain_target h fuel p else get_real_file h fuel p) ≠
      some (.error NotFound) := by
  intro he
  split_ifs at he
  · rcases get_real_directory_errors h fuel p _ he with h1 | h1 | h1 <;> revert h1 <;> decide
  · rcases get_symlink_chain_target_errors h fuel p _ he with h1 | h1 | h1 | h1 | h1 | h1 | h1 | h1 <;>
      revert h1 <;> decide
  · rcases get_real_file_errors h fuel p _ he with h1 | h1 | h1 <;> revert h1 <;> decide

/-- C9: when the first `lstat` of `get_real_path` fails on a non-empty path,
then for both values of the flag: `EACCES` gives "Permission denied.";
`ENOENT` and `ENOTDIR` give "The path specified is nonexistent";
`ENAMETOOLONG` gives "The path specified is nonexistent" if and only if
`get_base(path)` is longer than `NAME_MAX`, and otherwise the `switch` is left
without a throw; every `errno` other than these four and `ELOOP` gives "An
error occured reading from the filesystem.". -/
theorem lstat_error_classified (h : Host) (sb0 : StatBuf) (fuel : Nat) (path : String)
    (b : Bool) (e : Errno) (hp : path.length ≠ 0) (hl : h.lstat path = .error e) :
    (e = .EACCES → get_real_path h sb0 fuel path b = some (.error PermissionDenied)) ∧
    (e = .ENOENT ∨ e = .ENOTDIR → get_real_path h sb0 fuel path b = some (.error NotFound)) ∧
    (e = .ENAMETOOLONG →
      (get_real_path h sb0 fuel path b = some (.error NotFound) ↔
        h.NAME_MAX < (get_base path).length) ∧
      ((get_base path).length ≤ h.NAME_MAX → classify_lstat h sb0 path = .ok sb0)) ∧
    (∀ code, e = .other code → get_real_path h sb0 fuel path b = some (.error IoError)) := by
  refine ⟨?_, ?_, ?_, ?_⟩
  · rintro rfl
    simp [get_real_path, classify_lstat, hp, hl, PermissionDenied]
  · rintro (rfl | rfl) <;> simp [get_real_path, classify_lstat, hp, hl, NotFound]
  · rintro rfl
    by_cases hb : (get_base path).length ≤ h.NAME_MAX
    · have hc : classify_lstat h sb0 path = .ok sb0 := by
        simp [classify_lstat, hl, hb]
      refine ⟨⟨fun hr => ?_, fun hlt => absurd hb (not_le.2 hlt)⟩, fun _ => hc⟩
      exfalso
      unfold get_real_path at hr
      rw [if_neg hp] at hr
      simp only [hc] at hr
      exact routed_ne_NotFound h fuel path sb0 b hr
    · refine ⟨⟨fun _ => not_le.1 hb, fun _ => ?_⟩, fun hle => absurd hle hb⟩
      simp [get_real_path, classify_lstat, hp, hl, hb, NotFound]
  · rintro code rfl
    simp [get_real_path, classify_lstat, hp, hl, IoError]

/-- C9 on the tree `/tmp/a/b/c`: `lstat("nowhere")` fails with `ENOENT`. -/
theorem lstat_error_classified_witness :
    ("nowhere" : String).length ≠ 0 ∧ demoTree.host.lstat "nowhere" = .error .ENOENT ∧
      get_real_path demoTree.host ⟨0, 0, 0, 0⟩ 0 "nowhere" true = some (.error NotFound) :=
  ⟨by decide, by decide,
    (lstat_error_classified demoTree.host ⟨0, 0, 0, 0⟩ 0 "nowhere" true .ENOENT (by decide)
      (by decide)).2.1 (Or.inl rfl)⟩

/-- C10, as stated, fails: where `lstat("x/y")` fails with `ELOOP`,
`get_symlink_chain_target("x/y")` throws "Dangling or nonexistent symlink
chain."; `get_real_path("x/y", false)` throws "No such directory" instead, and
so does `get_real_path("x/y", true)` when the unwritten buffer reads as a
directory. -/
theorem eloop_counterexample :
    loopedPath.lstat "x/y" = .error .ELOOP ∧
      get_symlink_chain_target loopedPath 1 "x/y" = some (.error DanglingOrMissing) ∧
      get_real_path loopedPath ⟨0, 0, 0, 0⟩ 1 "x/y" false = some (.error NotFoundDirectory) ∧
      get_real_path loopedPath ⟨0, 0, 0, 0⟩ 1 "x/y" true = some (.error DanglingOrMissing) ∧
      get_real_path loopedPath ⟨0, 0, 0o040000, 0⟩ 1 "x/y" true =
        some (.error NotFoundDirectory) := by
  decide

/-- C10, amended: when the first `lstat` of `get_real_path` fails with `ELOOP`
on a non-empty path, no exception is thrown at that point and the routing of
line 233 is made on the buffer that `lstat` left unwritten.  When that buffer
does not read as a directory, the outcome is that of
`get_symlink_chain_target(path)` if `should_resolve_symlinks` is true, and that
of `get_real_file(path)` if it is false. -/
theorem eloop_routed (h : Host) (sb0 : StatBuf) (fuel : Nat) (path : String)
    (hp : path.length ≠ 0) (hl : h.lstat path = .error .ELOOP)
    (hd : S_ISDIR sb0.st_mode = false) :
    classify_lstat h sb0 path = .ok sb0 ∧
      get_real_path h sb0 fuel path true = get_symlink_chain_target h fuel path ∧
      get_real_path h sb0 fuel path false = get_real_file h fuel path := by
  have hc : classify_lstat h sb0 path = .ok sb0 := by
    simp [classify_lstat, hl]
  refine ⟨hc, ?_, ?_⟩ <;>
  · unfold get_real_path
    rw [if_neg hp]
    simp only [hc, hd]
    simp

/-- C10 amended, where `lstat("x/y")` fails with `ELOOP`. -/
theorem eloop_routed_witness :
    ("x/y" : String).length ≠ 0 ∧ loopedPath.lstat "x/y" = .error .ELOOP ∧
      S_ISDIR 0 = false ∧
      get_real_path loopedPath ⟨0, 0, 0, 0⟩ 1 "x/y" true =
        get_symlink_chain_target loopedPath 1 "x/y" :=
  ⟨by decide, by decide, by decide,
    (eloop_routed loopedPath ⟨0, 0, 0, 0⟩ 1 "x/y" (by decide) (by decide) (by decide)).2.1⟩

/-! ## Routing in `get_real_path` -/

theorem S_ISLNK_not_dir (m : Nat) (h : S_ISLNK m = true) : S_ISDIR m = false := by
  unfold S_ISLNK at h
  unfold S_ISDIR
  have h2 : m &&& S_IFMT = S_IFLNK := by simpa using h
  rw [h2]
  decide

theorem get_real_path_dir (h : Host) (sb0 : StatBuf) (fuel : Nat) (p : String)
    (sb : StatBuf) (b : Bool) (hp : p.length ≠ 0) (hl : h.lstat p = .ok sb)
    (hd : S_ISDIR sb.st_mode = true) :
    get_real_path h sb0 fuel p b = get_real_directory h fuel p := by
  unfold get_real_path classify_lstat
  rw [if_neg hp]
  simp only [hl, hd]
  simp

/-- C11: for a non-empty path on which `lstat` succeeds, `get_real_path`
routes by the type that `lstat` reports: a directory goes to
`get_real_directory(path)` for both flag values; anything else goes to
`get_symlink_chain_target(path)` when the flag is true and to
`get_real_file(path)` when it is false.  A symbolic link, whatever it points
to, is not a directory for `lstat`, and takes the second or the third route. -/
theorem get_real_path_routes (h : Host) (sb0 : StatBuf) (fuel : Nat) (path : String)
    (sb : StatBuf) (hp : path.length ≠ 0) (hl : h.lstat path = .ok sb) :
    (S_ISDIR sb.st_mode = true →
      ∀ b, get_real_path h sb0 fuel path b = get_real_directory h fuel path) ∧
    (S_ISDIR sb.st_mode = false →
      get_real_path h sb0 fuel path true = get_symlink_chain_target h fuel path ∧
      get_real_path h sb0 fuel path false = get_real_file h fuel path) ∧
    (S_ISLNK sb.st_mode = true →
      S_ISDIR sb.st_mode = false ∧
      get_real_path h sb0 fuel path true = get_symlink_chain_target h fuel path ∧
      get_real_path h sb0 fuel path false = get_real_file h fuel path) := by
  have h2 : S_ISDIR sb.st_mode = false →
      get_real_path h sb0 fuel path true = get_symlink_chain_target h fuel path ∧
      get_real_path h sb0 fuel path false = get_real_file h fuel path := by
    intro hd
    constructor
    · rw [get_real_path_not_dir h sb0 fuel path sb true hp hl hd]; rfl
    · rw [get_real_path_not_dir h sb0 fuel path sb false hp hl hd]; rfl
  refine ⟨fun hd b => get_real_path_dir h sb0 fuel path sb b hp hl hd, h2, fun hk => ?_⟩
  have hd := S_ISLNK_not_dir sb.st_mode hk
  exact ⟨hd, h2 hd⟩

/-- C11 at the link `/l -> /f`: with the flag true the call is that of
`get_symlink_chain_target`, which follows the link to `/f`. -/
theorem get_real_path_routes_witness :
    ("/l" : String).length ≠ 0 ∧ exactLink.lstat "/l" = .ok ⟨1, 5, 0o120777, 2⟩ ∧
      S_ISLNK 0o120777 = true ∧
      get_real_path exactLink ⟨0, 0, 0, 0⟩ 2 "/l" true =
        get_symlink_chain_target exactLink 2 "/l" ∧
      get_symlink_chain_target exactLink 2 "/l" = some (.ok "/f") :=
  ⟨by decide, by decide, by decide,
    ((get_real_path_routes exactLink ⟨0, 0, 0, 0⟩ 2 "/l" ⟨1, 5, 0o120777, 2⟩ (by decide)
      (by decide)).2.2 (by decide)).2.1, by decide⟩

/-! ## One run of the loop of `get_symlink_chain_target` -/

/-- C20: for a non-empty path that `lstat` reports as existing and as neither
a directory nor a symbolic link, the loop of `get_symlink_chain_target` ends
in its first run with the path unchanged, so that
`get_symlink_chain_target(p)` is `get_real_file(p)` and `get_real_path(p, true)`
is `get_real_path(p, false)`: the same string, the same exception, or the same
lack of fuel. -/
theorem flag_irrelevant_for_plain (h : Host) (sb0 : StatBuf) (fuel : Nat) (p : String)
    (sb : StatBuf) (hp : p.length ≠ 0) (hl : h.lstat p = .ok sb)
    (hd : S_ISDIR sb.st_mode = false) (hk : S_ISLNK sb.st_mode = false) :
    follow_chain h (fuel + 1) p [] = some (.ok p) ∧
      get_symlink_chain_target h (fuel + 1) p = get_real_file h (fuel + 1) p ∧
      get_real_path h sb0 (fuel + 1) p true = get_real_path h sb0 (fuel + 1) p false := by
  have h1 := follow_chain_not_link h fuel p [] sb hl (List.not_mem_nil _) hk
  have h2 : get_symlink_chain_target h (fuel + 1) p = get_real_file h (fuel + 1) p := by
    unfold get_symlink_chain_target
    rw [if_neg hp, h1]
  refine ⟨h1, h2, ?_⟩
  rw [get_real_path_not_dir h sb0 (fuel + 1) p sb true hp hl hd,
    get_real_path_not_dir h sb0 (fuel + 1) p sb false hp hl hd]
  simpa using h2

/-- C20 at the plain file `/tmp/a/f.txt` of the tree `/tmp/a/b/c`, named
`c/../../f.txt` from the working directory `/tmp/a/b`. -/
theorem flag_irrelevant_for_plain_witness :
    ("c/../../f.txt" : String).length ≠ 0 ∧
      demoTree.host.lstat "c/../../f.txt" = .ok ⟨1, 20, 0o100644, 0⟩ ∧
      S_ISDIR 0o100644 = false ∧ S_ISLNK 0o100644 = false ∧
      get_real_path demoTree.host ⟨0, 0, 0, 0⟩ 2 "c/../../f.txt" true =
        get_real_path demoTree.host ⟨0, 0, 0, 0⟩ 2 "c/../../f.txt" false ∧
      get_real_path demoTree.host ⟨0, 0, 0, 0⟩ 2 "c/../../f.txt" true =
        some (.ok "/tmp/a/f.txt") :=
  ⟨by decide, by decide, by decide, by decide,
    (flag_irrelevant_for_plain demoTree.host ⟨0, 0, 0, 0⟩ 1 "c/../../f.txt"
      ⟨1, 20, 0o100644, 0⟩ (by decide) (by decide) (by decide) (by decide)).2.2,
    by decide⟩

/-- C16: in one run of the loop of `get_symlink_chain_target` from the working
path `path` and the seen set `seen`: a failed `lstat` throws "Dangling or
nonexistent symlink chain."; else an identity already seen throws "Recursive
symlink chain."; else a symbolic link of reported length `≤ 0` throws "invalid
path length", whatever `readlink` would answer.  The three exceptions differ,
and the first run, which starts from the empty set, never throws the second. -/
theorem chain_checks_in_order (h : Host) (fuel : Nat) (path : String) (seen : List file_id) :
    (∀ e, h.lstat path = .error e →
      follow_chain h (fuel + 1) path seen = some (.error DanglingOrMissing)) ∧
    (∀ sb, h.lstat path = .ok sb → sb.id ∈ seen →
      follow_chain h (fuel + 1) path seen = some (.error RecursiveChain)) ∧
    (∀ sb, h.lstat path = .ok sb → sb.id ∉ seen → S_ISLNK sb.st_mode = true →
      sb.st_size ≤ 0 →
      ∀ h2 : Host, h2.lstat = h.lstat →
        follow_chain h2 (fuel + 1) path seen = some (.error InvalidLinkLength)) ∧
    (DanglingOrMissing ≠ RecursiveChain ∧ RecursiveChain ≠ InvalidLinkLength ∧
      DanglingOrMissing ≠ InvalidLinkLength) ∧
    follow_chain h 1 path [] ≠ some (.error RecursiveChain) ∧
    (path.length ≠ 0 → get_symlink_chain_target h 1 path ≠ some (.error RecursiveChain)) := by
  have hfirst : follow_chain h 1 path [] ≠ some (.error RecursiveChain) := by
    intro hc
    cases hl : h.lstat path with
    | error e =>
      rw [follow_chain_lstat_error h 0 path [] e hl] at hc
      revert hc
      decide
    | ok sb =>
      cases hk : S_ISLNK sb.st_mode with
      | false =>
        rw [follow_chain_not_link h 0 path [] sb hl (List.not_mem_nil _) hk] at hc
        cases hc
      | true =>
        by_cases hsz : sb.st_size ≤ 0
        · rw [follow_chain_bad_size h 0 path [] sb hl (List.not_mem_nil _) hk hsz] at hc
          revert hc
          decide
        · have hsz2 : 0 < sb.st_size := not_le.1 hsz
          cases hr : h.readlink path (sb.st_size + 1).toNat with
          | none =>
            rw [follow_chain_read_failed h 0 path [] sb hl (List.not_mem_nil _) hk hsz2 hr] at hc
            revert hc
            decide
          | some t =>
            by_cases hn : t.length = 0 ∨ sb.st_size < t.length
            · rw [follow_chain_read_rejected h 0 path [] sb t hl (List.not_mem_nil _) hk hsz2 hr
                hn] at hc
              revert hc
              decide
            · have h0 : 0 < t.length := by
                rcases Nat.eq_zero_or_pos t.length with h0 | h0
                · exact absurd (Or.inl h0) hn
                · exact h0
              have h1 : (t.length : Int) ≤ sb.st_size := by
                by_contra hc2
                exact hn (Or.inr (not_le.1 hc2))
              rw [follow_chain_read_accepted h 0 path [] sb t hl (List.not_mem_nil _) hk hsz2 hr
                h0 h1] at hc
              simp [follow_chain] at hc
  refine ⟨fun e hl => follow_chain_lstat_error h fuel path seen e hl,
    fun sb hl hs => follow_chain_revisit h fuel path seen sb hl hs,
    fun sb hl hs hk hsz h2 h2l =>
      follow_chain_bad_size h2 fuel path seen sb (by rw [h2l]; exact hl) hs hk hsz,
    by decide, hfirst, fun hp => ?_⟩
  intro hc
  unfold get_symlink_chain_target at hc
  rw [if_neg hp] at hc
  cases hf : follow_chain h 1 path [] with
  | none => simp [hf] at hc
  | some r =>
    cases r with
    | error e2 =>
      simp only [hf] at hc
      exact hfirst (by rw [hf, Option.some.inj hc])
    | ok q =>
      simp only [hf] at hc
      rcases get_real_file_errors h 1 q _ hc with h1 | h1 | h1 <;> revert h1 <;> decide

/-- C16 at the link `a` of the working directory `/w`, found again in the seen
set. -/
theorem chain_checks_in_order_witness :
    cwdLinks.lstat "a" = .ok ⟨1, 101, 0o120777, 1⟩ ∧
      follow_chain cwdLinks 1 "a" [(1, 102), (1, 101)] = some (.error RecursiveChain) :=
  ⟨by decide,
    (chain_checks_in_order cwdLinks 0 "a" [(1, 102), (1, 101)]).2.1 ⟨1, 101, 0o120777, 1⟩
      (by decide) (by decide)⟩

/-! ## The lexical splitter -/

theorem rfind_slash_some (cs : List Char) (i : Nat) (h : rfind_slash cs = some i) :
    (cs.take (i + 1)).getLast? = some '/' ∧ '/' ∉ cs.drop (i + 1) := by
  induction cs generalizing i with
  | nil => simp [rfind_slash] at h
  | cons c cs ih =>
    unfold rfind_slash at h
    cases hr : rfind_slash cs with
    | some j =>
      simp only [hr, Option.some.injEq] at h
      subst h
      obtain ⟨h1, h2⟩ := ih j hr
      refine ⟨?_, by simpa using h2⟩
      rw [List.take_succ_cons]
      cases ht : cs.take (j + 1) with
      | nil => rw [ht] at h1; simp at h1
      | cons a l =>
        rw [ht] at h1
        rw [List.getLast?_cons_cons]
        exact h1
    | none =>
      simp only [hr] at h
      by_cases hc : c = '/'
      · simp only [hc, if_true, Option.some.injEq] at h
        subst h
        refine ⟨by simp [hc], ?_⟩
        simp only [zero_add, List.drop_succ_cons, List.drop_zero]
        intro hm
        have : ∀ (l : List Char), rfind_slash l = none → '/' ∉ l := by
          intro l
          induction l with
          | nil => intro _ hx; simp at hx
          | cons a l ihl =>
            intro hn
            unfold rfind_slash at hn
            cases hl : rfind_slash l with
            | some k => simp [hl] at hn
            | none =>
              simp only [hl] at hn
              by_cases ha : a = '/'
              · simp [ha] at hn
              · intro hx
                rcases List.mem_cons.1 hx with h1 | h1
                · exact ha h1.symm
                · exact ihl hl h1
        exact this cs hr hm
      · simp [hc] at h

theorem rfind_slash_of_mem (cs : List Char) (h : '/' ∈ cs) : ∃ i, rfind_slash cs = some i := by
  cases hr : rfind_slash cs with
  | some i => exact ⟨i, rfl⟩
  | none =>
    exfalso
    induction cs with
    | nil => simp at h
    | cons c cs ih =>
      unfold rfind_slash at hr
      cases hl : rfind_slash cs with
      | some k => simp [hl] at hr
      | none =>
        simp only [hl] at hr
        by_cases hc : c = '/'
        · simp [hc] at hr
        · rcases List.mem_cons.1 h with h1 | h1
          · exact hc h1.symm
          · exact ih h1 hl

/-- C19: `get_directory` and `get_base` split a string at its last `'/'`.
For every `p`, `get_base(p)` holds no `'/'`.  If `p` holds a `'/'`, then
`get_directory(p)` is an initial part of `p` that ends with `'/'`,
`get_base(p)` is what follows it, and `get_directory(p) ++ get_base(p) = p`.
If `p` holds no `'/'`, then `get_directory(p) = "."` and `get_base(p) = p`.
Both are functions of the text of `p` alone. -/
theorem lexical_split (p : String) :
    '/' ∉ (get_base p).data ∧
    ('/' ∈ p.data →
      (get_directory p).data <+: p.data ∧ (get_directory p).data.getLast? = some '/' ∧
      (get_base p).data <:+ p.data ∧ get_directory p ++ get_base p = p) ∧
    ('/' ∉ p.data → get_directory p = "." ∧ get_base p = p) := by
  refine ⟨?_, ?_, ?_⟩
  · unfold get_base
    cases hr : rfind_slash p.data with
    | some i => exact (rfind_slash_some p.data i hr).2
    | none =>
      intro hm
      obtain ⟨i, hi⟩ := rfind_slash_of_mem p.data hm
      rw [hr] at hi
      cases hi
  · intro hm
    obtain ⟨i, hi⟩ := rfind_slash_of_mem p.data hm
    have hd : get_directory p = ⟨p.data.take (i + 1)⟩ := by simp [get_directory, hi]
    have hb : get_base p = ⟨p.data.drop (i + 1)⟩ := by simp [get_base, hi]
    rw [hd, hb]
    refine ⟨List.take_prefix _ _, (rfind_slash_some p.data i hi).1, List.drop_suffix _ _, ?_⟩
    apply String.ext
    simp [String.data_append]
  · intro hm
    exact ⟨get_directory_no_slash p hm, by simp [get_base, rfind_slash_none p.data hm]⟩

/-- C19 at `a/b/c` and at `abc`. -/
theorem lexical_split_witness :
    '/' ∈ ("a/b/c" : String).data ∧ get_directory "a/b/c" = "a/b/" ∧ get_base "a/b/c" = "c" ∧
      get_directory "a/b/c" ++ get_base "a/b/c" = "a/b/c" ∧
      '/' ∉ ("abc" : String).data ∧ get_directory "abc" = "." ∧ get_base "abc" = "abc" :=
  ⟨by decide, by decide, by decide, ((lexical_split "a/b/c").2.1 (by decide)).2.2.2,
    by decide, ((lexical_split "abc").2.2 (by decide)).1,
    ((lexical_split "abc").2.2 (by decide)).2⟩

/-! ## The window of accepted reads -/

/-- C15, as stated, fails at `n = s`: the link `/l` has reported length 2 and
`readlink` returns the two bytes `/f`; the read is accepted and the call
returns `/f`.  The buffer is of `s + 1` bytes: where the target has grown to
the three bytes `/ff`, a read into two bytes would return 2 and be accepted,
but the call reads three bytes and throws. -/
theorem link_read_full_accepted :
    exactLink.lstat "/l" = .ok ⟨1, 5, 0o120777, 2⟩ ∧
      exactLink.readlink "/l" 3 = some "/f" ∧ ("/f" : String).length = 2 ∧
      get_symlink_chain_target exactLink 2 "/l" = some (.ok "/f") ∧
      grownLink.lstat "/l" = .ok ⟨1, 5, 0o120777, 2⟩ ∧
      grownLink.readlink "/l" 2 = some "/f" ∧ grownLink.readlink "/l" 3 = some "/ff" ∧
      get_symlink_chain_target grownLink 2 "/l" = some (.error LinkRaceModified) := by
  decide

/-! ## The loop of `get_real_directory`, run by run -/

theorem ascend_succ (h : Host) (root_id : file_id) (fuel : Nat) (cur : file_id) (up : String)
    (comps : List String) :
    ascend h root_id (fuel + 1) cur up comps =
      if cur = root_id then some (cur, comps)
      else
        match ascend_body h cur up with
        | none => some (cur, comps)
        | some (c, u, d) => ascend h root_id fuel c u (comps ++ [d]) := by
  rw [ascend]
  by_cases hc : cur = root_id
  · simp [hc]
  · simp only [hc, if_false, ascend_body]
    cases h.opendir up with
    | none => rfl
    | some dir =>
      simp only
      cases scan_entries h (up ++ "/") cur dir.entries with
      | none => rfl
      | some d_name =>
        simp only
        cases dir.fstat <;> rfl

theorem scan_entries_hit (h : Host) (up : String) (cur : file_id) (e : String)
    (rest : List String) (hm : Matches h up cur e) :
    scan_entries h (up ++ "/") cur (e :: rest) = some e := by
  obtain ⟨h1, h2, sb, hl, hid⟩ := hm
  unfold scan_entries
  simp [h1, h2, hl, hid]

theorem scan_entries_skip (h : Host) (up : String) (cur : file_id) (e : String)
    (rest : List String) (hm : ¬ Matches h up cur e) :
    scan_entries h (up ++ "/") cur (e :: rest) = scan_entries h (up ++ "/") cur rest := by
  rw [scan_entries]
  by_cases hdots : e ≠ "." ∧ e ≠ ".."
  · rw [if_pos hdots]
    cases hl : h.lstat (up ++ "/" ++ e) with
    | error er => rfl
    | ok sb =>
      have : sb.id ≠ cur := fun hid => hm ⟨hdots.1, hdots.2, sb, hl, hid⟩
      simp [this]
  · rw [if_neg hdots]

theorem scan_entries_some (h : Host) (up : String) (cur : file_id) (entries : List String)
    (d : String) :
    scan_entries h (up ++ "/") cur entries = some d ↔
      ∃ pre post, entries = pre ++ d :: post ∧ Matches h up cur d ∧
        ∀ e ∈ pre, ¬ Matches h up cur e := by
  induction entries with
  | nil => simp [scan_entries]
  | cons e rest ih =>
    by_cases hm : Matches h up cur e
    · rw [scan_entries_hit h up cur e rest hm]
      constructor
      · intro hd
        simp only [Option.some.injEq] at hd
        subst hd
        exact ⟨[], rest, rfl, hm, by simp⟩
      · rintro ⟨pre, post, heq, _, hpre⟩
        cases pre with
        | nil =>
          simp only [List.nil_append, List.cons.injEq] at heq
          rw [heq.1]
        | cons a pre =>
          simp only [List.cons_append, List.cons.injEq] at heq
          exact absurd hm (heq.1 ▸ hpre a (List.mem_cons_self _ _))
    · rw [scan_entries_skip h up cur e rest hm, ih]
      constructor
      · rintro ⟨pre, post, heq, hd, hpre⟩
        refine ⟨e :: pre, post, by simp [heq], hd, ?_⟩
        intro a ha
        rcases List.mem_cons.1 ha with h1 | h1
        · rw [h1]; exact hm
        · exact hpre a h1
      · rintro ⟨pre, post, heq, hd, hpre⟩
        cases pre with
        | nil =>
          simp only [List.nil_append, List.cons.injEq] at heq
          exact absurd (heq.1 ▸ hd) hm
        | cons a pre =>
          simp only [List.cons_append, List.cons.injEq] at heq
          exact ⟨pre, post, heq.2, hd, fun x hx => hpre x (List.mem_cons_of_mem _ hx)⟩

theorem scan_entries_none (h : Host) (up : String) (cur : file_id) (entries : List String) :
    scan_entries h (up ++ "/") cur entries = none ↔ ∀ e ∈ entries, ¬ Matches h up cur e := by
  induction entries with
  | nil => simp [scan_entries]
  | cons a rest ih =>
    by_cases ha : Matches h up cur a
    · rw [scan_entries_hit h up cur a rest ha]
      constructor
      · intro hc; cases hc
      · intro hall
        exact absurd ha (hall a (List.mem_cons_self _ _))
    · rw [scan_entries_skip h up cur a rest ha, ih]
      simp [ha]

theorem ascend_body_none (h : Host) (cur : file_id) (up : String) :
    ascend_body h cur up = none ↔
      h.opendir up = none ∨
        ∃ dir, h.opendir up = some dir ∧ ∀ e ∈ dir.entries, ¬ Matches h up cur e := by
  unfold ascend_body
  cases ho : h.opendir up with
  | none => simp
  | some dir =>
    simp only [false_or, Option.some.injEq, exists_eq_left']
    rw [← scan_entries_none]
    cases hs : scan_entries h (up ++ "/") cur dir.entries with
    | none => simp
    | some d =>
      simp only
      cases dir.fstat <;> simp

theorem ascend_body_some (h : Host) (cur c : file_id) (up u d : String) :
    ascend_body h cur up = some (c, u, d) ↔
      ∃ dir pre post, h.opendir up = some dir ∧ dir.entries = pre ++ d :: post ∧
        Matches h up cur d ∧ (∀ e ∈ pre, ¬ Matches h up cur e) ∧
        ((∃ sbp, dir.fstat = some sbp ∧ c = sbp.id ∧ u = up ++ "/" ++ "..") ∨
          (dir.fstat = none ∧ c = cur ∧ u = up ++ "/" ++ d)) := by
  unfold ascend_body
  cases ho : h.opendir up with
  | none => simp
  | some dir =>
    cases hs : scan_entries h (up ++ "/") cur dir.entries with
    | none =>
      simp only [hs]
      refine ⟨fun hc => (by cases hc), fun hex => ?_⟩
      exfalso
      obtain ⟨dir2, pre, post, hdir, heq, hm, hpre, _⟩ := hex
      simp only [Option.some.injEq] at hdir
      subst hdir
      have := (scan_entries_some h up cur dir.entries d).2 ⟨pre, post, heq, hm, hpre⟩
      rw [hs] at this
      cases this
    | some d2 =>
      obtain ⟨pre2, post2, heq2, hm2, hpre2⟩ := (scan_entries_some h up cur dir.entries d2).1 hs
      simp only [hs]
      constructor
      · intro hst
        cases hf : dir.fstat with
        | none =>
          simp only [hf, Option.some.injEq, Prod.mk.injEq] at hst
          obtain ⟨h1, h2, h3⟩ := hst
          subst h3
          exact ⟨dir, pre2, post2, rfl, heq2, hm2, hpre2, Or.inr ⟨hf, h1.symm, h2.symm⟩⟩
        | some sbp =>
          simp only [hf, Option.some.injEq, Prod.mk.injEq] at hst
          obtain ⟨h1, h2, h3⟩ := hst
          subst h3
          exact ⟨dir, pre2, post2, rfl, heq2, hm2, hpre2, Or.inl ⟨sbp, hf, h1.symm, h2.symm⟩⟩
      · rintro ⟨dir2, pre, post, hdir, heq, hm, hpre, hf⟩
        simp only [Option.some.injEq] at hdir
        subst hdir
        have hd := (scan_entries_some h up cur dir.entries d).2 ⟨pre, post, heq, hm, hpre⟩
        rw [hs] at hd
        simp only [Option.some.injEq] at hd
        subst hd
        rcases hf with ⟨sbp, hf, rfl, rfl⟩ | ⟨hf, rfl, rfl⟩
        · simp [hf]
        · simp [hf]

/-- C14, as stated, fails where `fstat` fails on the directory just opened:
`x` is matched in the root and pushed, and the current identity stays that of
`x`, `(1, 3)`, while the directory opened is the root, `(1, 2)`; the next run
probes `x/../x`, finds no match, and the call throws. -/
theorem ascend_fstat_failed :
    (fstatFails.opendir "x/..").map DIR.entries = some [".", "..", "x"] ∧
      (fstatFails.opendir "x/..").map DIR.fstat = some none ∧
      fstatFails.stat "x/.." = some ⟨1, 2, 0o040755, 0⟩ ∧
      ascend_body fstatFails (1, 3) "x/.." = some ((1, 3), "x/../x", "x") ∧
      ((1, 3) : file_id) ≠ (1, 2) ∧
      get_real_directory fstatFails 2 "x" = some (.error BrokenChain) := by
  decide

/-- C14, amended: a run of the loop body from `(cur, up)` pushes `d` and goes
on with `(c, u)` exactly when the directory opened at `up` lists `d` after
entries `pre` none of which matches, `d` matches (it is neither `.` nor `..`
and `lstat(up/d)` succeeds with the identity `cur`), and either `fstat` of the
open directory succeeds, `c` is the identity it reports and `u` is `up/..`, or
`fstat` fails, `c` is `cur` and `u` is `up/d`.  What follows `d` in the listing
plays no part, and an entry whose `lstat` fails does not match.  The loop then
continues from `(c, u)` with `d` appended to the components. -/
theorem ascend_step_first_match (h : Host) (root_id : file_id) (fuel : Nat)
    (cur c : file_id) (up u d : String) (comps : List String) :
    (ascend_body h cur up = some (c, u, d) ↔
      ∃ dir pre post, h.opendir up = some dir ∧ dir.entries = pre ++ d :: post ∧
        Matches h up cur d ∧ (∀ e ∈ pre, ¬ Matches h up cur e) ∧
        ((∃ sbp, dir.fstat = some sbp ∧ c = sbp.id ∧ u = up ++ "/" ++ "..") ∨
          (dir.fstat = none ∧ c = cur ∧ u = up ++ "/" ++ d))) ∧
    (∀ e er, h.lstat (up ++ "/" ++ e) = .error er → ¬ Matches h up cur e) ∧
    (cur ≠ root_id → ascend_body h cur up = some (c, u, d) →
      ascend h root_id (fuel + 1) cur up comps = ascend h root_id fuel c u (comps ++ [d])) := by
  refine ⟨ascend_body_some h cur c up u d, ?_, ?_⟩
  · rintro e er hl ⟨_, _, sb, hok, _⟩
    rw [hl] at hok
    cases hok
  · intro hne hb
    rw [ascend_succ, if_neg hne, hb]

/-- C14 amended, at the tree `/tmp/a/b/c` from the directory `c`: the probe
`c/..` lists `.`, `..`, `c`; `c` is pushed and the identity becomes that of
`b`. -/
theorem ascend_step_first_match_witness :
    Matches demoTree.host "c/.." (1, 13) "c" ∧
      ascend_body demoTree.host (1, 13) "c/.." = some ((1, 12), "c/../..", "c") :=
  ⟨⟨by decide, by decide, ⟨1, 13, 0o040755, 0⟩, by decide, rfl⟩,
    (ascend_step_first_match demoTree.host (1, 2) 0 (1, 13) (1, 12) "c/.." "c/../.." "c" []).1.2
      ⟨⟨[".", "..", "c"], some ⟨1, 12, 0o040755, 0⟩⟩, [".", ".."], [], rfl, rfl,
        ⟨by decide, by decide, ⟨1, 13, 0o040755, 0⟩, by decide, rfl⟩,
        (by
          intro e he hm
          rcases List.mem_cons.1 he with h1 | h1
          · exact hm.1 h1
          · rcases List.mem_cons.1 h1 with h2 | h2
            · exact hm.2.1 h2
            · simp at h2),
        Or.inl ⟨⟨1, 12, 0o040755, 0⟩, rfl, rfl, rfl⟩⟩⟩


theorem ascend_breaks_iff (h : Host) (root_id : file_id) (fuel : Nat) :
    ∀ (cur : file_id) (up : String) (comps : List String),
      (∃ st, ascend h root_id fuel cur up comps = some st ∧ st.1 ≠ root_id) ↔
        BreaksWithin h root_id fuel cur up := by
  induction fuel with
  | zero =>
    intro cur up comps
    constructor
    · rintro ⟨st, ha, hne⟩
      unfold ascend at ha
      by_cases hc : cur = root_id
      · rw [if_pos hc] at ha
        simp only [Option.some.injEq] at ha
        subst ha
        exact absurd hc hne
      · rw [if_neg hc] at ha
        cases ha
    · intro hb
      cases hb
  | succ fuel ih =>
    intro cur up comps
    rw [ascend_succ]
    by_cases hc : cur = root_id
    · rw [if_pos hc]
      constructor
      · rintro ⟨st, ha, hne⟩
        simp only [Option.some.injEq] at ha
        subst ha
        exact absurd hc hne
      · intro hb
        cases hb with
        | cannot_open h1 _ => exact absurd hc h1
        | no_entry h1 _ _ => exact absurd hc h1
        | step h1 _ _ => exact absurd hc h1
    · rw [if_neg hc]
      cases hb : ascend_body h cur up with
      | none =>
        simp only
        constructor
        · intro _
          rcases (ascend_body_none h cur up).1 hb with ho | ⟨dir, ho, hall⟩
          · exact BreaksWithin.cannot_open hc ho
          · exact BreaksWithin.no_entry hc ho hall
        · intro _
          exact ⟨(cur, comps), rfl, hc⟩
      | some r =>
        obtain ⟨c, u, d⟩ := r
        simp only
        rw [ih c u (comps ++ [d])]
        constructor
        · intro hbw
          exact BreaksWithin.step hc hb hbw
        · intro hbw
          cases hbw with
          | cannot_open _ ho =>
            have := (ascend_body_none h cur up).2 (Or.inl ho)
            rw [hb] at this
            cases this
          | no_entry _ ho hall =>
            have := (ascend_body_none h cur up).2 (Or.inr ⟨_, ho, hall⟩)
            rw [hb] at this
            cases this
          | step _ hb2 hrest =>
            rw [hb] at hb2
            simp only [Option.some.injEq, Prod.mk.injEq] at hb2
            obtain ⟨h1, h2, _⟩ := hb2
            subst h1
            subst h2
            exact hrest

/-- C12: `get_real_directory` throws "No such directory" exactly when
`stat(path)` fails; when it succeeds, "Could not read from root" exactly when
`stat("/")` fails; when both succeed, "Real path of directory not found."
exactly when, before the root identity is reached, a run of the loop cannot
open its probe directory or finds in it no entry that matches the current
identity.  It throws nothing else, and it returns a string only from a run
that ended on the root identity: the string built from all the components. -/
theorem get_real_directory_failures (h : Host) (fuel : Nat) (path : String) :
    (get_real_directory h fuel path = some (.error NotFoundDirectory) ↔ h.stat path = none) ∧
    (∀ sb, h.stat path = some sb →
      (get_real_directory h fuel path = some (.error RootUnreadable) ↔ h.stat "/" = none)) ∧
    (∀ sb sbr, h.stat path = some sb → h.stat "/" = some sbr →
      (get_real_directory h fuel path = some (.error BrokenChain) ↔
        BreaksWithin h sbr.id fuel sb.id (path ++ "/.."))) ∧
    (∀ e, get_real_directory h fuel path = some (.error e) →
      e = NotFoundDirectory ∨ e = RootUnreadable ∨ e = BrokenChain) ∧
    (∀ r, get_real_directory h fuel path = some (.ok r) →
      ∃ sb sbr comps, h.stat path = some sb ∧ h.stat "/" = some sbr ∧
        ascend h sbr.id fuel sb.id (path ++ "/..") [] = some (sbr.id, comps) ∧
        r = build_real_path comps) := by
  have hbroken : ∀ sb sbr, h.stat path = some sb → h.stat "/" = some sbr →
      (get_real_directory h fuel path = some (.error BrokenChain) ↔
        ∃ st, ascend h sbr.id fuel sb.id (path ++ "/..") [] = some st ∧ st.1 ≠ sbr.id) := by
    intro sb sbr hs hr
    unfold get_real_directory
    simp only [hs, hr]
    cases ha : ascend h sbr.id fuel sb.id (path ++ "/..") [] with
    | none => simp
    | some st =>
      obtain ⟨c, cs⟩ := st
      by_cases hc : c = sbr.id
      · simp [hc]
      · simp [hc, BrokenChain]
  refine ⟨?_, ?_, ?_, get_real_directory_errors h fuel path,
    get_real_directory_ok h fuel path⟩
  · constructor
    · intro hg
      cases hs : h.stat path with
      | none => rfl
      | some sb =>
        exfalso
        cases hr : h.stat "/" with
        | none =>
          simp [get_real_directory, hs, hr, NotFoundDirectory] at hg
        | some sbr =>
          unfold get_real_directory at hg
          simp only [hs, hr] at hg
          cases ha : ascend h sbr.id fuel sb.id (path ++ "/..") [] with
          | none => simp [ha] at hg
          | some st =>
            obtain ⟨c, cs⟩ := st
            simp only [ha] at hg
            by_cases hc : c = sbr.id
            · simp [hc] at hg
            · simp [hc, NotFoundDirectory] at hg
    · intro hs
      simp [get_real_directory, hs, NotFoundDirectory]
  · intro sb hs
    constructor
    · intro hg
      cases hr : h.stat "/" with
      | none => rfl
      | some sbr =>
        exfalso
        unfold get_real_directory at hg
        simp only [hs, hr] at hg
        cases ha : ascend h sbr.id fuel sb.id (path ++ "/..") [] with
        | none => simp [ha] at hg
        | some st =>
          obtain ⟨c, cs⟩ := st
          simp only [ha] at hg
          by_cases hc : c = sbr.id
          · simp [hc] at hg
          · simp [hc, RootUnreadable] at hg
    · intro hr
      simp [get_real_directory, hs, hr, RootUnreadable]
  · intro sb sbr hs hr
    rw [hbroken sb sbr hs hr, ascend_breaks_iff]

/-- C12 at the plain file `/tmp/a/f.txt` of the tree `/tmp/a/b/c`: `stat`
succeeds on it and on `/`, the probe `c/../../f.txt/..` cannot be opened, and
the call throws "Real path of directory not found.". -/
theorem get_real_directory_failures_witness :
    demoTree.host.stat "c/../../f.txt" = some ⟨1, 20, 0o100644, 0⟩ ∧
      demoTree.host.stat "/" = some ⟨1, 2, 0o040755, 0⟩ ∧
      get_real_directory demoTree.host 1 "c/../../f.txt" = some (.error BrokenChain) :=
  ⟨by decide, by decide,
    ((get_real_directory_failures demoTree.host 1 "c/../../f.txt").2.2.1 ⟨1, 20, 0o100644, 0⟩
      ⟨1, 2, 0o040755, 0⟩ (by decide) (by decide)).2
      (BreaksWithin.cannot_open (by decide) rfl)⟩

/-! ## Termination of the loop of `get_symlink_chain_target` -/

theorem follow_chain_run (h : Host) (fuel : Nat) (path : String) (seen : List file_id) :
    (∃ r, follow_chain h (fuel + 1) path seen = some r ∧
        ∀ n, follow_chain h (n + 1) path seen = some r) ∨
      ∃ sb t, h.lstat path = .ok sb ∧ sb.id ∉ seen ∧
        ∀ n, follow_chain h (n + 1) path seen =
          follow_chain h n (next_path path t) (sb.id :: seen) := by
  cases hl : h.lstat path with
  | error e =>
    exact Or.inl ⟨_, follow_chain_lstat_error h fuel path seen e hl,
      fun n => follow_chain_lstat_error h n path seen e hl⟩
  | ok sb =>
    by_cases hs : sb.id ∈ seen
    · exact Or.inl ⟨_, follow_chain_revisit h fuel path seen sb hl hs,
        fun n => follow_chain_revisit h n path seen sb hl hs⟩
    · cases hk : S_ISLNK sb.st_mode with
      | false =>
        exact Or.inl ⟨_, follow_chain_not_link h fuel path seen sb hl hs hk,
          fun n => follow_chain_not_link h n path seen sb hl hs hk⟩
      | true =>
        by_cases hsz : sb.st_size ≤ 0
        · exact Or.inl ⟨_, follow_chain_bad_size h fuel path seen sb hl hs hk hsz,
            fun n => follow_chain_bad_size h n path seen sb hl hs hk hsz⟩
        · have hsz2 : 0 < sb.st_size := not_le.1 hsz
          cases hr : h.readlink path (sb.st_size + 1).toNat with
          | none =>
            exact Or.inl ⟨_, follow_chain_read_failed h fuel path seen sb hl hs hk hsz2 hr,
              fun n => follow_chain_read_failed h n path seen sb hl hs hk hsz2 hr⟩
          | some t =>
            by_cases hn : t.length = 0 ∨ sb.st_size < t.length
            · exact Or.inl ⟨_,
                follow_chain_read_rejected h fuel path seen sb t hl hs hk hsz2 hr hn,
                fun n => follow_chain_read_rejected h n path seen sb t hl hs hk hsz2 hr hn⟩
            · have h0 : 0 < t.length := by
                rcases Nat.eq_zero_or_pos t.length with h0 | h0
                · exact absurd (Or.inl h0) hn
                · exact h0
              have h1 : (t.length : Int) ≤ sb.st_size := by
                by_contra hc
                exact hn (Or.inr (not_le.1 hc))
              exact Or.inr ⟨sb, t, rfl, hs, fun n =>
                follow_chain_read_accepted h n path seen sb t hl hs hk hsz2 hr h0 h1⟩

theorem follow_chain_fuel_mono (h : Host) (fuel : Nat) :
    ∀ (path : String) (seen : List file_id) (r : Except Exception String) (k : Nat),
      follow_chain h fuel path seen = some r → follow_chain h (fuel + k) path seen = some r := by
  induction fuel with
  | zero =>
    intro path seen r k hf
    simp [follow_chain] at hf
  | succ fuel ih =>
    intro path seen r k hf
    have hk : fuel + 1 + k = (fuel + k) + 1 := by omega
    rw [hk]
    rcases follow_chain_run h fuel path seen with ⟨r2, h1, h2⟩ | ⟨sb, t, _, _, h2⟩
    · rw [h2 (fuel + k), ← h1, hf]
    · rw [h2 fuel] at hf
      rw [h2 (fuel + k)]
      exact ih _ _ r k hf

theorem seen_length_le (ids seen : List file_id) (hn : seen.Nodup) (hsub : ∀ x ∈ seen, x ∈ ids) :
    seen.length ≤ ids.dedup.length := by
  have hsub2 : seen ⊆ ids.dedup := fun x hx => List.mem_dedup.2 (hsub x hx)
  exact (List.subperm_of_subset hn hsub2).length_le

theorem follow_chain_bounded (h : Host) (ids : List file_id)
    (hids : ∀ p sb, h.lstat p = .ok sb → sb.id ∈ ids) (fuel : Nat) :
    ∀ (path : String) (seen : List file_id), seen.Nodup → (∀ x ∈ seen, x ∈ ids) →
      ids.dedup.length < seen.length + fuel →
      ∃ r, follow_chain h fuel path seen = some r := by
  induction fuel with
  | zero =>
    intro path seen hn hsub hlt
    have := seen_length_le ids seen hn hsub
    omega
  | succ fuel ih =>
    intro path seen hn hsub hlt
    rcases follow_chain_run h fuel path seen with ⟨r, h1, _⟩ | ⟨sb, t, hl, hs, h2⟩
    · exact ⟨r, h1⟩
    · rw [h2 fuel]
      refine ih _ _ (List.nodup_cons.2 ⟨hs, hn⟩) ?_ ?_
      · intro x hx
        rcases List.mem_cons.1 hx with h1 | h1
        · rw [h1]; exact hids path sb hl
        · exact hsub x h1
      · simp only [List.length_cons]
        omega

/-- C13: on a host whose `lstat` reports identities from a finite list `ids`,
the loop of `get_symlink_chain_target` ends within `N + 1` runs of its body,
`N` the number of distinct identities, from every path and whatever the
chain: a run either leaves the loop or adds to the seen set an identity that
was not in it.  More fuel changes nothing: the loop has no bound of its own,
and the call is the exception of the loop or `get_real_file` of the path it
ends on. -/
theorem follow_chain_terminates (h : Host) (ids : List file_id)
    (hids : ∀ p sb, h.lstat p = .ok sb → sb.id ∈ ids) (path : String) :
    (∃ r, follow_chain h (ids.dedup.length + 1) path [] = some r ∧
      (∀ fuel, ids.dedup.length + 1 ≤ fuel → follow_chain h fuel path [] = some r) ∧
      (path.length ≠ 0 → ∀ fuel, ids.dedup.length + 1 ≤ fuel →
        get_symlink_chain_target h fuel path =
          match r with
          | .error e => some (.error e)
          | .ok q => get_real_file h fuel q)) ∧
    (∀ (fuel : Nat) (p : String) (seen : List file_id),
      (∃ r, follow_chain h (fuel + 1) p seen = some r ∧
          ∀ n, follow_chain h (n + 1) p seen = some r) ∨
        ∃ sb t, h.lstat p = .ok sb ∧ sb.id ∉ seen ∧
          ∀ n, follow_chain h (n + 1) p seen =
            follow_chain h n (next_path p t) (sb.id :: seen)) := by
  obtain ⟨r, hr⟩ := follow_chain_bounded h ids hids (ids.dedup.length + 1) path []
    List.nodup_nil (by simp) (by simp)
  have hall : ∀ fuel, ids.dedup.length + 1 ≤ fuel → follow_chain h fuel path [] = some r := by
    intro fuel hf
    obtain ⟨k, rfl⟩ := Nat.exists_eq_add_of_le hf
    exact follow_chain_fuel_mono h _ path [] r k hr
  refine ⟨⟨r, hr, hall, ?_⟩, fun fuel p seen => follow_chain_run h fuel p seen⟩
  intro hp fuel hf
  unfold get_symlink_chain_target
  rw [if_neg hp, hall fuel hf]
  cases r <;> rfl

theorem cwdLinks_ids (p : String) (sb : StatBuf) (hl : cwdLinks.lstat p = .ok sb) :
    sb.id ∈ [(1, 101), (1, 102), (1, 103), (1, 104), (1, 3), ((1, 2) : file_id)] := by
  simp only [cwdLinks] at hl
  split_ifs at hl <;> (injection hl with hl; subst hl; decide)

/-- C13 in the working directory `/w` with the links `a -> b` and `b -> a`:
six identities, and the loop from `a` ends within seven runs. -/
theorem follow_chain_terminates_witness :
    ([(1, 101), (1, 102), (1, 103), (1, 104), (1, 3), ((1, 2) : file_id)].dedup.length = 6) ∧
      ∃ r, follow_chain cwdLinks 7 "a" [] = some r :=
  ⟨by decide,
    let ⟨r, hr, _⟩ := (follow_chain_terminates cwdLinks
      [(1, 101), (1, 102), (1, 103), (1, 104), (1, 3), (1, 2)] cwdLinks_ids "a").1
    ⟨r, hr⟩⟩



theorem chainName_length (k : Nat) : (chainName k).length = k + 1 := by
  simp [chainName, String.length]

theorem longChain_lstat (n k : Nat) (hk : 1 ≤ k) (hkn : k ≤ n + 1) :
    (longChain n).lstat (chainName k) =
      .ok ⟨1, k + 1, if k + 1 ≤ n + 1 then 0o120777 else 0o100644, ((k + 1 : Nat) : Int) + 1⟩ := by
  have hc : 2 ≤ (chainName k).length ∧ (chainName k).length ≤ n + 2 ∧
      chainName k = chainName ((chainName k).length - 1) := by
    rw [chainName_length]
    exact ⟨by omega, by omega, by simp⟩
  simp only [longChain]
  rw [if_pos hc, chainName_length]

theorem longChain_readlink (n k m : Nat) (hk : 1 ≤ k) (hkn : k ≤ n) :
    (longChain n).readlink (chainName k) m = some (chainName (k + 1)) := by
  have hc : 2 ≤ (chainName k).length ∧ (chainName k).length ≤ n + 1 ∧
      chainName k = chainName ((chainName k).length - 1) := by
    rw [chainName_length]
    exact ⟨by omega, by omega, by simp⟩
  simp only [longChain]
  rw [if_pos hc, chainName_length]

theorem longChain_follow (n : Nat) :
    ∀ (j k : Nat) (seen : List file_id), 1 ≤ k → k + j = n + 1 → (∀ x ∈ seen, x.2 ≤ k) →
      follow_chain (longChain n) (j + 1) (chainName k) seen = some (.ok (chainName (n + 1))) ∧
        follow_chain (longChain n) j (chainName k) seen = none := by
  intro j
  induction j with
  | zero =>
    intro k seen hk hkj hseen
    have hkn : k = n + 1 := by omega
    subst hkn
    have hl := longChain_lstat n (n + 1) hk (le_refl _)
    have hmode : (if n + 1 + 1 ≤ n + 1 then 0o120777 else 0o100644 : Nat) = 0o100644 := by
      rw [if_neg (by omega)]
    rw [hmode] at hl
    refine ⟨?_, by simp [follow_chain]⟩
    refine follow_chain_not_link _ 0 _ seen _ hl ?_ (by show S_ISLNK 0o100644 = false; decide)
    intro hm
    have := hseen _ hm
    simp [StatBuf.id] at this
  | succ j ih =>
    intro k seen hk hkj hseen
    have hkn : k ≤ n := by omega
    have hl := longChain_lstat n k hk (by omega)
    have hmode : (if k + 1 ≤ n + 1 then 0o120777 else 0o100644 : Nat) = 0o120777 := by
      rw [if_pos (by omega)]
    rw [hmode] at hl
    have hns : (⟨1, k + 1, 0o120777, ((k + 1 : Nat) : Int) + 1⟩ : StatBuf).id ∉ seen := by
      intro hm
      have := hseen _ hm
      simp [StatBuf.id] at this
    have hr := longChain_readlink n k ((((k + 1 : Nat) : Int) + 1 + 1).toNat) hk hkn
    have hnext : next_path (chainName k) (chainName (k + 1)) = chainName (k + 1) := by
      simp [next_path, chainName]
    have hseen2 : ∀ x ∈ (⟨1, k + 1, 0o120777, ((k + 1 : Nat) : Int) + 1⟩ : StatBuf).id :: seen, x.2 ≤ k + 1 := by
      intro x hx
      rcases List.mem_cons.1 hx with h1 | h1
      · rw [h1]; simp [StatBuf.id]
      · exact Nat.le_succ_of_le (hseen x h1)
    obtain ⟨ih1, ih2⟩ := ih (k + 1) _ (by omega) (by omega) hseen2
    have hacc : ∀ m, follow_chain (longChain n) (m + 1) (chainName k) seen =
        follow_chain (longChain n) m (chainName (k + 1))
          ((⟨1, k + 1, 0o120777, ((k + 1 : Nat) : Int) + 1⟩ : StatBuf).id :: seen) := by
      intro m
      rw [← hnext]
      refine follow_chain_read_accepted _ m _ seen _ _ hl hns
        (by show S_ISLNK 0o120777 = true; decide) ?_ ?_ ?_ ?_
      · show (0 : Int) < ((k + 1 : Nat) : Int) + 1
        omega
      · exact hr
      · rw [chainName_length]; omega
      · rw [chainName_length]
        show ((k + 1 + 1 : Nat) : Int) ≤ ((k + 1 : Nat) : Int) + 1
        omega
    exact ⟨by rw [hacc, ih1], by rw [hacc, ih2]⟩

/-- The loop has no depth limit: for every `n`, a chain of `n` links is
followed to the plain file at its end in `n + 1` runs of the loop, and in no
fewer. -/
theorem long_chain_followed (n : Nat) :
    follow_chain (longChain n) (n + 1) (chainName 1) [] = some (.ok (chainName (n + 1))) ∧
      follow_chain (longChain n) n (chainName 1) [] = none :=
  longChain_follow n n 1 [] (le_refl _) (by omega) (by simp)

/-! ## The shape of the string returned by `get_real_directory` -/

theorem ascend_components (h : Host) (root_id : file_id) (P : String → Prop)
    (hP : ∀ p dir, h.opendir p = some dir → ∀ e ∈ dir.entries, P e) (fuel : Nat) :
    ∀ (cur : file_id) (up : String) (comps : List String) (st : file_id × List String),
      (∀ c ∈ comps, P c) → ascend h root_id fuel cur up comps = some st →
      ∀ c ∈ st.2, P c := by
  induction fuel with
  | zero =>
    intro cur up comps st hc ha
    unfold ascend at ha
    by_cases hr : cur = root_id
    · rw [if_pos hr] at ha
      simp only [Option.some.injEq] at ha
      subst ha
      exact hc
    · rw [if_neg hr] at ha
      cases ha
  | succ fuel ih =>
    intro cur up comps st hc ha
    rw [ascend_succ] at ha
    by_cases hr : cur = root_id
    · rw [if_pos hr] at ha
      simp only [Option.some.injEq] at ha
      subst ha
      exact hc
    · rw [if_neg hr] at ha
      cases hb : ascend_body h cur up with
      | none =>
        simp only [hb, Option.some.injEq] at ha
        subst ha
        exact hc
      | some r =>
        obtain ⟨c2, u2, d⟩ := r
        simp only [hb] at ha
        obtain ⟨dir, pre, post, ho, heq, _, _, _⟩ := (ascend_body_some h cur c2 up u2 d).1 hb
        refine ih c2 u2 (comps ++ [d]) st ?_ ha
        intro c hcm
        rcases List.mem_append.1 hcm with h1 | h1
        · exact hc c h1
        · simp only [List.mem_singleton] at h1
          subst h1
          exact hP up dir ho c (by simp [heq])

theorem chain_noslash_then_slash (e : List Char) (he : '/' ∉ e) :
    List.Chain' NotBothSlash (e ++ ['/']) := by
  induction e with
  | nil => exact List.chain'_singleton _
  | cons a e ih =>
    have ha : a ≠ '/' := fun hc => he (by simp [hc])
    have he2 : '/' ∉ e := fun hc => he (by simp [hc])
    rw [List.cons_append, List.chain'_cons']
    exact ⟨fun y _ hxy => ha hxy.1, ih he2⟩

theorem canonical_shape (names : List String)
    (hv : ∀ c ∈ names, c.data ≠ [] ∧ '/' ∉ c.data) :
    List.Chain' NotBothSlash (canonical names).data ∧
      (canonical names).data.count '/' = names.length + 1 := by
  induction names using List.reverseRecOn with
  | nil =>
    refine ⟨?_, ?_⟩
    · show List.Chain' NotBothSlash ['/']
      exact List.chain'_singleton _
    · show List.count '/' ['/'] = 1
      simp
  | append_singleton l e ih =>
    obtain ⟨ih1, ih2⟩ := ih (fun c hc => hv c (by simp [hc]))
    obtain ⟨hne, hns⟩ := hv e (by simp)
    have hdata : (canonical (l ++ [e])).data = (canonical l).data ++ (e.data ++ ['/']) := by
      rw [canonical_append]
      simp only [String.data_append, List.append_assoc]
    rw [hdata]
    refine ⟨?_, ?_⟩
    · refine List.Chain'.append ih1 (chain_noslash_then_slash e.data hns) ?_
      intro x _ y hy hxy
      cases hd : e.data with
      | nil => exact hne hd
      | cons a rest =>
        rw [hd] at hy
        simp only [List.cons_append, List.head?_cons, Option.mem_def, Option.some.injEq] at hy
        rw [← hy] at hxy
        exact hns (by rw [hd, hxy.2]; simp)
    · rw [List.count_append, List.count_append, ih2, List.count_eq_zero.2 hns]
      simp

theorem no_double_slash (l : List Char) (hl : List.Chain' NotBothSlash l) :
    ¬ (['/', '/'] <:+: l) := by
  intro hinf
  have := hl.infix hinf
  rw [List.chain'_cons] at this
  exact this.1 ⟨rfl, rfl⟩

/-- C18: a string that `get_real_directory` returns begins and ends with
`'/'` and is `"/"` followed by the components pushed by the loop, the last
pushed first, each followed by one `'/'`.  On a host whose entry names are
non-empty and hold no `'/'`, the string holds no `"//"` and holds one `'/'`
more than there are components. -/
theorem real_directory_shape (h : Host) (fuel : Nat) (path r : String)
    (hr : get_real_directory h fuel path = some (.ok r)) :
    ∃ sb sbr comps, h.stat path = some sb ∧ h.stat "/" = some sbr ∧
      ascend h sbr.id fuel sb.id (path ++ "/..") [] = some (sbr.id, comps) ∧
      r = canonical comps.reverse ∧
      r = "/" ++ String.join (comps.reverse.map (fun c => c ++ "/")) ∧
      r.data.head? = some '/' ∧ r.data.getLast? = some '/' ∧
      (EntryNamesValid h →
        ¬ (['/', '/'] <:+: r.data) ∧ r.data.count '/' = comps.length + 1) := by
  obtain ⟨sb, sbr, comps, hs, hroot, ha, rfl⟩ := get_real_directory_ok h fuel path r hr
  refine ⟨sb, sbr, comps, hs, hroot, ha, build_real_path_eq comps, ?_, ?_, ?_, ?_⟩
  · rw [build_real_path_eq]
    generalize comps.reverse = l
    induction l using List.reverseRecOn with
    | nil => rfl
    | append_singleton l e ih =>
      rw [canonical_append, ih]
      apply String.ext
      simp [String.join, String.data_append, List.foldl_append]
  · rw [build_real_path_eq]
    obtain ⟨⟨zs, hz⟩, _⟩ := canonical_data comps.reverse
    rw [hz]; rfl
  · rw [build_real_path_eq]
    obtain ⟨_, ⟨ys, hy⟩⟩ := canonical_data comps.reverse
    rw [hy]; simp
  · intro hv
    have hc : ∀ c ∈ comps, c.data ≠ [] ∧ '/' ∉ c.data :=
      ascend_components h sbr.id (fun c => c.data ≠ [] ∧ '/' ∉ c.data) hv fuel sb.id
        (path ++ "/..") [] (sbr.id, comps) (by simp) ha
    have hsh := canonical_shape comps.reverse (fun c hcm => hc c (List.mem_reverse.1 hcm))
    rw [build_real_path_eq]
    exact ⟨no_double_slash _ hsh.1, by rw [hsh.2]; simp⟩

theorem Tree.names_valid (t : Tree) (hv : t.Valid) : EntryNamesValid t.host := by
  intro p dir ho e he
  simp only [Tree.host] at ho
  cases hres : t.resolve p with
  | none => simp [hres] at ho
  | some n =>
    simp only [hres, Option.bind] at ho
    have hn := t.resolve_mem hv p n hres
    split_ifs at ho
    simp only [Option.some.injEq] at ho
    subst ho
    simp only [List.mem_cons] at he
    rcases he with rfl | rfl | he
    · decide
    · decide
    · obtain ⟨⟨e1, m⟩, hem, rfl⟩ := List.mem_map.1 he
      obtain ⟨_, hvalid, _⟩ := hv.2.2.2.2.1 n hn _ hem
      exact ⟨hvalid.1, hvalid.2.2.2⟩

/-- C18 at the tree `/tmp/a/b/c`: from `c` the loop pushes `c`, `b`, `a`,
`tmp`, and the string returned is `/tmp/a/b/c/`, with no `"//"`. -/
theorem real_directory_shape_witness :
    get_real_directory demoTree.host 4 "c" = some (.ok "/tmp/a/b/c/") ∧
      EntryNamesValid demoTree.host ∧
      ¬ (['/', '/'] <:+: ("/tmp/a/b/c/" : String).data) :=
  ⟨by decide, demoTree.names_valid demoTree_valid,
    let ⟨_, _, _, _, _, _, _, _, _, _, h8⟩ :=
      real_directory_shape demoTree.host 4 "c" "/tmp/a/b/c/" (by decide)
    (h8 (demoTree.names_valid demoTree_valid)).1⟩

/-! ## One run of the loop of `get_symlink_chain_target`, as a step -/

theorem follow_chain_succ (h : Host) (fuel : Nat) (path : String) (seen : List file_id) :
    follow_chain h (fuel + 1) path seen =
      match chain_body h path seen with
      | .thrown e => some (.error e)
      | .left p => some (.ok p)
      | .again p s => follow_chain h fuel p s := by
  rw [follow_chain]
  unfold chain_body
  cases h.lstat path with
  | error e => rfl
  | ok sb =>
    simp only
    by_cases hs : sb.id ∈ seen
    · simp only [hs, if_true]
    · simp only [hs, if_false]
      cases S_ISLNK sb.st_mode with
      | false => rfl
      | true =>
        simp only [if_true]
        by_cases hsz : sb.st_size ≤ 0
        · simp only [hsz, if_true]
        · simp only [hsz, if_false]
          cases h.readlink path (sb.st_size + 1).toNat with
          | none => simp
          | some t =>
            simp only
            by_cases hn : ((t.length : Int) > 0 ∧ (t.length : Int) ≤ sb.st_size)
            · simp only [hn, not_true_eq_false, if_false, and_self]
              by_cases hh : t.data.head? = some '/'
              · simp only [hh, if_true]
              · simp only [hh, if_false]
            · simp only [hn, not_false_eq_true, if_true]

theorem chain_body_accepted (h : Host) (path : String) (seen : List file_id) (sb : StatBuf)
    (t : String) (hl : h.lstat path = .ok sb) (hs : sb.id ∉ seen)
    (hlnk : S_ISLNK sb.st_mode = true) (hsz : 0 < sb.st_size)
    (hr : h.readlink path (sb.st_size + 1).toNat = some t)
    (h0 : 0 < t.length) (h1 : (t.length : Int) ≤ sb.st_size) :
    chain_body h path seen = .again (next_path path t) (sb.id :: seen) := by
  have h0' : (t.length : Int) > 0 := by exact_mod_cast h0
  simp only [chain_body, hl, hs, hlnk, not_le.2 hsz, hr, next_path]
  simp only [h0', h1]
  by_cases hh : t.data.head? = some '/'
  · simp [hh]
  · simp [hh]

theorem chain_body_rejected (h : Host) (path : String) (seen : List file_id) (sb : StatBuf)
    (hl : h.lstat path = .ok sb) (hs : sb.id ∉ seen)
    (hlnk : S_ISLNK sb.st_mode = true) (hsz : 0 < sb.st_size)
    (hn : ¬ (0 < read_amount (h.readlink path (sb.st_size + 1).toNat) ∧
      read_amount (h.readlink path (sb.st_size + 1).toNat) ≤ sb.st_size)) :
    chain_body h path seen = .thrown LinkRaceModified := by
  cases hr : h.readlink path (sb.st_size + 1).toNat with
  | none => simp [chain_body, hl, hs, hlnk, not_le.2 hsz, hr, LinkRaceModified]
  | some t =>
    rw [hr] at hn
    simp only [read_amount] at hn
    have : ¬ ((t.length : Int) > 0 ∧ (t.length : Int) ≤ sb.st_size) := hn
    simp only [chain_body, hl, hs, hlnk, not_le.2 hsz, hr, LinkRaceModified]
    simp only [this]
    simp

theorem follow_chain_then_plain (h : Host) (fuel : Nat) (path q : String)
    (seen seen2 : List file_id) (sb2 : StatBuf)
    (hb : chain_body h path seen = .again q seen2) (hl : h.lstat q = .ok sb2)
    (hs : sb2.id ∉ seen2) (hk : S_ISLNK sb2.st_mode = false) :
    follow_chain h (fuel + 2) path seen = some (.ok q) := by
  rw [follow_chain_succ, hb]
  exact follow_chain_not_link h fuel q seen2 sb2 hl hs hk

theorem follow_chain_then_missing (h : Host) (fuel : Nat) (path q : String)
    (seen seen2 : List file_id) (e : Errno)
    (hb : chain_body h path seen = .again q seen2) (hl : h.lstat q = .error e) :
    follow_chain h (fuel + 2) path seen = some (.error DanglingOrMissing) := by
  rw [follow_chain_succ, hb]
  exact follow_chain_lstat_error h fuel q seen2 e hl

/-! ## What a link run accepts, and where it goes -/

/-- C6, amended: in the run of the loop that meets a symbolic link of reported
length `s > 0`, a `readlink` that fails, returns no byte or returns more than
`s` bytes makes the run, and the call, throw "link modified during check".  A
`readlink` that returns `n` bytes with `0 < n ≤ s` (the target is as long as
measured, or shorter) is accepted: the run ends in `continue` with the working
path formed from the bytes read, and the call goes by what `lstat` finds
there: a plain entry ends the loop with that path, a missing one throws
"Dangling or nonexistent symlink chain.". -/
theorem link_read_grown (h : Host) (fuel : Nat) (path : String) (seen : List file_id)
    (sb : StatBuf) (hl : h.lstat path = .ok sb) (hs : sb.id ∉ seen)
    (hlnk : S_ISLNK sb.st_mode = true) (hsz : 0 < sb.st_size) :
    (h.readlink path (sb.st_size + 1).toNat = none →
      chain_body h path seen = .thrown LinkRaceModified ∧
      follow_chain h (fuel + 1) path seen = some (.error LinkRaceModified)) ∧
    (∀ t, h.readlink path (sb.st_size + 1).toNat = some t →
      (t.length = 0 ∨ sb.st_size < t.length) →
      chain_body h path seen = .thrown LinkRaceModified ∧
      follow_chain h (fuel + 1) path seen = some (.error LinkRaceModified)) ∧
    (∀ t, h.readlink path (sb.st_size + 1).toNat = some t →
      0 < t.length → (t.length : Int) ≤ sb.st_size →
      chain_body h path seen = .again (next_path path t) (sb.id :: seen) ∧
      follow_chain h (fuel + 1) path seen =
        follow_chain h fuel (next_path path t) (sb.id :: seen) ∧
      (∀ sb2, h.lstat (next_path path t) = .ok sb2 → sb2.id ∉ sb.id :: seen →
        S_ISLNK sb2.st_mode = false →
        follow_chain h (fuel + 2) path seen = some (.ok (next_path path t))) ∧
      (∀ e, h.lstat (next_path path t) = .error e →
        follow_chain h (fuel + 2) path seen = some (.error DanglingOrMissing))) ∧
    (path.length ≠ 0 → ∀ t, h.readlink path (sb.st_size + 1).toNat = some t →
      sb.st_size < t.length →
      get_symlink_chain_target h (fuel + 1) path = some (.error LinkRaceModified)) ∧
    (path.length ≠ 0 → ∀ t sb2, h.readlink path (sb.st_size + 1).toNat = some t →
      0 < t.length → (t.length : Int) ≤ sb.st_size →
      h.lstat (next_path path t) = .ok sb2 → sb2.id ≠ sb.id → S_ISLNK sb2.st_mode = false →
      get_symlink_chain_target h (fuel + 2) path =
        get_real_file h (fuel + 2) (next_path path t)) := by
  have hrej : ∀ t, h.readlink path (sb.st_size + 1).toNat = some t →
      (t.length = 0 ∨ sb.st_size < t.length) →
      ¬ (0 < read_amount (h.readlink path (sb.st_size + 1).toNat) ∧
        read_amount (h.readlink path (sb.st_size + 1).toNat) ≤ sb.st_size) := by
    intro t hr hn
    rw [hr]
    simp only [read_amount]
    rintro ⟨h1, h2⟩
    rcases hn with h0 | h0
    · rw [h0] at h1; simp at h1
    · omega
  refine ⟨fun hr => ⟨?_, follow_chain_read_failed h fuel path seen sb hl hs hlnk hsz hr⟩,
    fun t hr hn => ⟨chain_body_rejected h path seen sb hl hs hlnk hsz (hrej t hr hn),
      follow_chain_read_rejected h fuel path seen sb t hl hs hlnk hsz hr hn⟩,
    fun t hr h0 h1 => ?_, ?_, ?_⟩
  · refine chain_body_rejected h path seen sb hl hs hlnk hsz ?_
    rw [hr]
    simp [read_amount]
  · have hb := chain_body_accepted h path seen sb t hl hs hlnk hsz hr h0 h1
    exact ⟨hb, follow_chain_read_accepted h fuel path seen sb t hl hs hlnk hsz hr h0 h1,
      fun sb2 hl2 hs2 hk2 => follow_chain_then_plain h fuel path _ seen _ sb2 hb hl2 hs2 hk2,
      fun e hl2 => follow_chain_then_missing h fuel path _ seen _ e hb hl2⟩
  · intro hp t hr hn
    unfold get_symlink_chain_target
    rw [if_neg hp, follow_chain_read_rejected h fuel path [] sb t hl (List.not_mem_nil _) hlnk
      hsz hr (Or.inr hn)]
  · intro hp t sb2 hr h0 h1 hl2 hne hk2
    have hb := chain_body_accepted h path [] sb t hl (List.not_mem_nil _) hlnk hsz hr h0 h1
    unfold get_symlink_chain_target
    rw [if_neg hp, follow_chain_then_plain h fuel path _ [] _ sb2 hb hl2 (by simp [hne]) hk2]

/-- C6 amended, at two links: `/l` of `shrunkLink`, measured at five bytes and
read at two, is followed to the plain file `/f`, which the call returns;
`/l` of `grownLink`, measured at two bytes and read at three, makes the call
throw. -/
theorem link_read_grown_witness :
    shrunkLink.lstat "/l" = .ok ⟨1, 5, 0o120777, 5⟩ ∧
      shrunkLink.readlink "/l" 6 = some "/f" ∧
      chain_body shrunkLink "/l" [] = .again "/f" [(1, 5)] ∧
      follow_chain shrunkLink 2 "/l" [] = some (.ok "/f") ∧
      grownLink.lstat "/l" = .ok ⟨1, 5, 0o120777, 2⟩ ∧
      grownLink.readlink "/l" 3 = some "/ff" ∧
      get_symlink_chain_target grownLink 1 "/l" = some (.error LinkRaceModified) :=
  ⟨by decide, by decide,
    ((link_read_grown shrunkLink 0 "/l" [] ⟨1, 5, 0o120777, 5⟩ (by decide) (by decide)
      (by decide) (by decide)).2.2.1 "/f" (by decide) (by decide) (by decide)).1,
    ((link_read_grown shrunkLink 0 "/l" [] ⟨1, 5, 0o120777, 5⟩ (by decide) (by decide)
      (by decide) (by decide)).2.2.1 "/f" (by decide) (by decide) (by decide)).2.2.1
      ⟨1, 6, 0o100644, 0⟩ (by decide) (by decide) (by decide),
    by decide, by decide,
    (link_read_grown grownLink 0 "/l" [] ⟨1, 5, 0o120777, 2⟩ (by decide) (by decide)
      (by decide) (by decide)).2.2.2.1 (by decide) "/ff" (by decide) (by decide)⟩

/-- C15, amended: in the run of the loop that meets a symbolic link of
reported length `s > 0`, `readlink` is called with a buffer of `s + 1` bytes.
Its return value `n` is accepted exactly when `0 < n ≤ s`: then, and only
then, the run ends in `continue` with the working path formed from the bytes
read, and the call goes by what `lstat` finds there; for every other `n`, and
only then, the run throws "link modified during check", and so does the
call. -/
theorem link_read_window (h : Host) (fuel : Nat) (path : String) (seen : List file_id)
    (sb : StatBuf) (hl : h.lstat path = .ok sb) (hs : sb.id ∉ seen)
    (hlnk : S_ISLNK sb.st_mode = true) (hsz : 0 < sb.st_size) :
    (chain_body h path seen = .thrown LinkRaceModified ↔
      ¬ (0 < read_amount (h.readlink path (sb.st_size.toNat + 1)) ∧
        read_amount (h.readlink path (sb.st_size.toNat + 1)) ≤ sb.st_size)) ∧
    ((∃ t, h.readlink path (sb.st_size.toNat + 1) = some t ∧
        chain_body h path seen = .again (next_path path t) (sb.id :: seen)) ↔
      (0 < read_amount (h.readlink path (sb.st_size.toNat + 1)) ∧
        read_amount (h.readlink path (sb.st_size.toNat + 1)) ≤ sb.st_size)) ∧
    (¬ (0 < read_amount (h.readlink path (sb.st_size.toNat + 1)) ∧
        read_amount (h.readlink path (sb.st_size.toNat + 1)) ≤ sb.st_size) →
      follow_chain h (fuel + 1) path seen = some (.error LinkRaceModified)) ∧
    (0 < read_amount (h.readlink path (sb.st_size.toNat + 1)) ∧
        read_amount (h.readlink path (sb.st_size.toNat + 1)) ≤ sb.st_size →
      ∃ t, h.readlink path (sb.st_size.toNat + 1) = some t ∧
        follow_chain h (fuel + 1) path seen =
          follow_chain h fuel (next_path path t) (sb.id :: seen) ∧
        (∀ sb2, h.lstat (next_path path t) = .ok sb2 → sb2.id ∉ sb.id :: seen →
          S_ISLNK sb2.st_mode = false →
          follow_chain h (fuel + 2) path seen = some (.ok (next_path path t))) ∧
        (∀ e, h.lstat (next_path path t) = .error e →
          follow_chain h (fuel + 2) path seen = some (.error DanglingOrMissing))) := by
  have hb : (sb.st_size + 1).toNat = sb.st_size.toNat + 1 := by omega
  rw [← hb]
  have hacc : (0 < read_amount (h.readlink path (sb.st_size + 1).toNat) ∧
      read_amount (h.readlink path (sb.st_size + 1).toNat) ≤ sb.st_size) →
      ∃ t, h.readlink path (sb.st_size + 1).toNat = some t ∧ 0 < t.length ∧
        (t.length : Int) ≤ sb.st_size := by
    rintro ⟨h0, h1⟩
    cases hr : h.readlink path (sb.st_size + 1).toNat with
    | none => rw [hr] at h0; simp [read_amount] at h0
    | some t =>
      rw [hr] at h0 h1
      simp only [read_amount] at h0 h1
      exact ⟨t, rfl, by omega, h1⟩
  refine ⟨⟨fun hthrown hwin => ?_, fun hn => chain_body_rejected h path seen sb hl hs hlnk hsz hn⟩,
    ⟨?_, fun hwin => ?_⟩, fun hn => ?_, fun hwin => ?_⟩
  · obtain ⟨t, hr, h0, h1⟩ := hacc hwin
    rw [chain_body_accepted h path seen sb t hl hs hlnk hsz hr h0 h1] at hthrown
    cases hthrown
  · rintro ⟨t, hr, hagain⟩
    by_contra hn
    rw [chain_body_rejected h path seen sb hl hs hlnk hsz hn] at hagain
    cases hagain
  · obtain ⟨t, hr, h0, h1⟩ := hacc hwin
    exact ⟨t, hr, chain_body_accepted h path seen sb t hl hs hlnk hsz hr h0 h1⟩
  · rw [follow_chain_succ, chain_body_rejected h path seen sb hl hs hlnk hsz hn]
  · obtain ⟨t, hr, h0, h1⟩ := hacc hwin
    have hbody := chain_body_accepted h path seen sb t hl hs hlnk hsz hr h0 h1
    exact ⟨t, hr, follow_chain_read_accepted h fuel path seen sb t hl hs hlnk hsz hr h0 h1,
      fun sb2 hl2 hs2 hk2 => follow_chain_then_plain h fuel path _ seen _ sb2 hbody hl2 hs2 hk2,
      fun e hl2 => follow_chain_then_missing h fuel path _ seen _ e hbody hl2⟩

/-- C15 amended, at the link `/l` of `exactLink`, of reported length 2, whose
`readlink` into three bytes returns 2: the run does not throw, it continues at
`/f`, a plain file, and the loop ends there. -/
theorem link_read_window_witness :
    exactLink.lstat "/l" = .ok ⟨1, 5, 0o120777, 2⟩ ∧
      read_amount (exactLink.readlink "/l" 3) = 2 ∧
      chain_body exactLink "/l" [] ≠ .thrown LinkRaceModified ∧
      chain_body exactLink "/l" [] = .again "/f" [(1, 5)] ∧
      follow_chain exactLink 2 "/l" [] = some (.ok "/f") := by
  have hw := link_read_window exactLink 0 "/l" [] ⟨1, 5, 0o120777, 2⟩ (by decide) (by decide)
    (by decide) (by decide)
  have hread : exactLink.readlink "/l" 3 = some "/f" := by decide
  refine ⟨by decide, by decide, fun hc => hw.1.1 hc (by decide), ?_, ?_⟩
  · obtain ⟨t, hr, hb⟩ := hw.2.1.2 (by decide)
    have ht : t = "/f" := Option.some.inj (hr.symm.trans hread)
    subst ht
    exact hb
  · obtain ⟨t, hr, _, hplain, _⟩ := hw.2.2.2 (by decide)
    have ht : t = "/f" := Option.some.inj (hr.symm.trans hread)
    subst ht
    exact hplain ⟨1, 6, 0o100644, 0⟩ (by decide) (by decide) (by decide)

/-- C17: when a run of the loop of `get_symlink_chain_target` follows a link
read at the working path `p` with target text `t`, the run ends in `continue`
with the working path `t` itself if `t` begins with `'/'`, and
`get_directory(p) ++ t` otherwise, `get_directory` being a function of the
text of `p` alone; the seen set gains the identity of the link.  The next
run goes by that path: if `lstat` fails on it the call throws "Dangling or
nonexistent symlink chain."; if it is an entry not seen and not a link, the
loop ends with it. -/
theorem link_followed_to (h : Host) (fuel : Nat) (p : String) (seen : List file_id)
    (sb : StatBuf) (t : String) (hl : h.lstat p = .ok sb) (hs : sb.id ∉ seen)
    (hlnk : S_ISLNK sb.st_mode = true) (hsz : 0 < sb.st_size)
    (hr : h.readlink p (sb.st_size + 1).toNat = some t)
    (h0 : 0 < t.length) (h1 : (t.length : Int) ≤ sb.st_size) :
    (t.data.head? = some '/' →
      chain_body h p seen = .again t (sb.id :: seen) ∧
      follow_chain h (fuel + 1) p seen = follow_chain h fuel t (sb.id :: seen) ∧
      (∀ e, h.lstat t = .error e →
        follow_chain h (fuel + 2) p seen = some (.error DanglingOrMissing)) ∧
      (∀ sb2, h.lstat t = .ok sb2 → sb2.id ∉ sb.id :: seen → S_ISLNK sb2.st_mode = false →
        follow_chain h (fuel + 2) p seen = some (.ok t))) ∧
    (t.data.head? ≠ some '/' →
      chain_body h p seen = .again (get_directory p ++ t) (sb.id :: seen) ∧
      follow_chain h (fuel + 1) p seen =
        follow_chain h fuel (get_directory p ++ t) (sb.id :: seen) ∧
      (∀ e, h.lstat (get_directory p ++ t) = .error e →
        follow_chain h (fuel + 2) p seen = some (.error DanglingOrMissing)) ∧
      (∀ sb2, h.lstat (get_directory p ++ t) = .ok sb2 → sb2.id ∉ sb.id :: seen →
        S_ISLNK sb2.st_mode = false →
        follow_chain h (fuel + 2) p seen = some (.ok (get_directory p ++ t)))) := by
  have hb := chain_body_accepted h p seen sb t hl hs hlnk hsz hr h0 h1
  have hn := follow_chain_read_accepted h fuel p seen sb t hl hs hlnk hsz hr h0 h1
  refine ⟨fun ha => ?_, fun hrel => ?_⟩
  · have hq : next_path p t = t := by rw [next_path, if_pos ha]
    rw [hq] at hb hn
    exact ⟨hb, hn, fun e hl2 => follow_chain_then_missing h fuel p _ seen _ e hb hl2,
      fun sb2 hl2 hs2 hk2 => follow_chain_then_plain h fuel p _ seen _ sb2 hb hl2 hs2 hk2⟩
  · have hq : next_path p t = get_directory p ++ t := by rw [next_path, if_neg hrel]
    rw [hq] at hb hn
    exact ⟨hb, hn, fun e hl2 => follow_chain_then_missing h fuel p _ seen _ e hb hl2,
      fun sb2 hl2 hs2 hk2 => follow_chain_then_plain h fuel p _ seen _ sb2 hb hl2 hs2 hk2⟩

/-- C17 at the link `/d/m -> g` of `exactLink`: the run continues at `/d/`
followed by `g`, a plain file, and the loop ends with `/d/g`. -/
theorem link_followed_to_witness :
    exactLink.lstat "/d/m" = .ok ⟨1, 8, 0o120777, 1⟩ ∧
      exactLink.readlink "/d/m" 2 = some "g" ∧ get_directory "/d/m" ++ "g" = "/d/g" ∧
      chain_body exactLink "/d/m" [] = .again "/d/g" [(1, 8)] ∧
      follow_chain exactLink 2 "/d/m" [] = some (.ok "/d/g") :=
  ⟨by decide, by decide, by decide,
    ((link_followed_to exactLink 0 "/d/m" [] ⟨1, 8, 0o120777, 1⟩ "g" (by decide) (by decide)
      (by decide) (by decide) (by decide) (by decide) (by decide)).2 (by decide)).1,
    ((link_followed_to exactLink 0 "/d/m" [] ⟨1, 8, 0o120777, 1⟩ "g" (by decide) (by decide)
      (by decide) (by decide) (by decide) (by decide) (by decide)).2 (by decide)).2.2.2
      ⟨1, 9, 0o100644, 0⟩ (by decide) (by decide) (by decide)⟩

/-! ## Idempotence of `get_real_directory` under agreeing probes -/

theorem scan_entries_firstMatch (h : Host) (up : String) (cur : file_id)
    (entries : List String) (d : String) :
    scan_entries h (up ++ "/") cur entries = some d ↔ FirstMatch h up cur entries d := by
  induction entries with
  | nil => simp [scan_entries, FirstMatch]
  | cons e rest ih =>
    by_cases hm : Matches h up cur e
    · rw [scan_entries_hit h up cur e rest hm]
      simp [FirstMatch, hm]
    · rw [scan_entries_skip h up cur e rest hm, ih]
      simp [FirstMatch, hm]

/-- On a static tree host, the probes from one spelling of a directory are
answered as those from any other spelling of it. -/
theorem probesAgree_of_static (h : Host) (root_id : file_id) (parent : file_id → file_id)
    (name : file_id → String) (wf : WellFormedTree h root_id parent name) :
    ∀ (fuel : Nat) (u v : String) (sbu sbv : StatBuf),
      h.stat u = some sbu → S_ISDIR sbu.st_mode = true →
      h.stat v = some sbv → S_ISDIR sbv.st_mode = true → sbv.id = sbu.id →
      ProbesAgree h root_id fuel sbu.id (u ++ "/..") (v ++ "/..") := by
  intro fuel
  induction fuel with
  | zero => intros; trivial
  | succ fuel ih =>
    intro u v sbu sbv hu hdu hv hdv hid
    unfold ProbesAgree
    by_cases hc : sbu.id = root_id
    · exact Or.inl hc
    · right
      obtain ⟨dir, sbp, hopen, hfstat, hstatp, hdp, hidp, hmem, hd1, hd2, hself, huniq⟩ :=
        wf.dotdot u sbu hu hdu hc
      obtain ⟨dir2, sbp2, hopen2, hfstat2, hstatp2, hdp2, hidp2, hmem2, hd12, hd22, hself2,
        huniq2⟩ := wf.dotdot v sbv hv hdv (hid ▸ hc)
      have hscan : scan_entries h (u ++ "/.." ++ "/") sbu.id dir.entries = some (name sbu.id) :=
        scan_entries_unique h _ sbu.id _ dir.entries hmem hd1 hd2 hself huniq
      have hscan2 : scan_entries h (v ++ "/.." ++ "/") sbu.id dir2.entries =
          some (name sbu.id) := by
        rw [hid] at hmem2 hd12 hd22 hself2 huniq2
        exact scan_entries_unique h _ sbu.id _ dir2.entries hmem2 hd12 hd22 hself2 huniq2
      simp only [hopen, hscan, hopen2, hfstat, hfstat2, Option.map_some']
      refine ⟨(scan_entries_firstMatch h _ _ _ _).1 hscan2, ?_, ?_⟩
      · rw [hidp, hidp2, hid]
      · rw [append_dotdot, append_dotdot]
        exact ih _ _ sbp sbp2 hstatp hdp hstatp2 hdp2 (by rw [hidp, hidp2, hid])

/-- On a static tree host, a result `R` of `get_real_directory(D)` meets the
conditions of `get_real_directory_of_probesAgree`. -/
theorem static_probesAgree (h : Host) (root_id : file_id) (parent : file_id → file_id)
    (name : file_id → String) (st : StaticTree h root_id parent name) (fuel : Nat)
    (D R : String) (hr : get_real_directory h fuel D = some (.ok R)) :
    ∃ sb sbr sb2, h.stat D = some sb ∧ h.stat "/" = some sbr ∧ h.stat R = some sb2 ∧
      sb2.id = sb.id ∧ ProbesAgree h sbr.id fuel sb.id (D ++ "/..") (R ++ "/..") := by
  obtain ⟨sb, sbr, comps, hs, hroot, ha, rfl⟩ := get_real_directory_ok h fuel D _ hr
  obtain ⟨sbr2, hroot2, hrid⟩ := st.root_stat
  rw [hroot] at hroot2
  injection hroot2 with hroot2
  subst hroot2
  rw [hrid] at ha
  cases hd : S_ISDIR sb.st_mode with
  | false =>
    exfalso
    obtain ⟨hne, hopen⟩ := st.notdir D sb hs hd
    unfold ascend at ha
    rw [if_neg hne] at ha
    cases fuel with
    | zero => cases ha
    | succ fuel =>
      simp only [hopen, Option.some.injEq, Prod.mk.injEq] at ha
      exact hne ha.1
  | true =>
    obtain ⟨up, hup, hasc, hlen⟩ :=
      ascend_reaches_root h root_id parent name st.toWellFormedTree fuel D sb [] comps hs hd ha
    simp only [List.nil_append] at hup
    subst hup
    have hlin : Lineage root_id parent name sb.id comps.reverse := by
      unfold Lineage
      rw [List.reverse_reverse]
      exact hasc
    obtain ⟨sbc, hsc, hidc, hdc⟩ := st.reach D sb comps.reverse hs hd hlin
    rw [build_real_path_eq]
    refine ⟨sb, sbr, sbc, hs, hroot, hsc, hidc, ?_⟩
    rw [hrid]
    exact probesAgree_of_static h root_id parent name st.toWellFormedTree fuel D _ sb sbc hs hd
      hsc hdc hidc

/-- That `stat` resolves the result is not enough: on the tree `/tmp/a/b/c`
with paths limited to 19 bytes, `c` resolves to `/tmp/a/b/c/`, `stat` finds
the same directory at `/tmp/a/b/c/`, and yet the ascension from it fails, its
probes being longer than the limit. -/
theorem get_real_directory_probes_needed :
    get_real_directory (demoTree.hostWithin 20) 4 "c" = some (.ok "/tmp/a/b/c/") ∧
      (demoTree.hostWithin 20).stat "/tmp/a/b/c/" = (demoTree.hostWithin 20).stat "c" ∧
      (demoTree.hostWithin 20).stat "c" = some ⟨1, 13, 0o040755, 0⟩ ∧
      ¬ ProbesAgree (demoTree.hostWithin 20) (1, 2) 4 (1, 13) ("c" ++ "/..")
        ("/tmp/a/b/c/" ++ "/..") ∧
      get_real_directory (demoTree.hostWithin 20) 4 "/tmp/a/b/c/" =
        some (.error BrokenChain) := by
  decide

end qfs
